import Mathlib

/-!
Shallow embedding of the tsinfer ancestor builder core
(lib source file containing `ancestor_builder_*`, provided as
src/unnamed/part_001) and of the Python binding wrapper `Threader_run`
(src/_tsinfermodule.c), together with theorems about the embedded code.

Modelling conventions:
 * `allele_t` values are natural numbers for genotype data (entries 0/1) and
   integers for ancestor haplotypes, with the unknown allele `-1`
   (stored as the byte 0xFF in C) modelled as the integer `-1`.
 * C arrays indexed by site are Lean lists; the ancestor output buffer is a
   total function `Nat → Int` (the C code writes it by index).
 * The in-place loop state of `ancestor_builder_compute_older_sites`
   (lines 231-306) is an explicit record `cos_state`; one iteration of the
   loop body is `cos_step` (returning `none` when the loop breaks) and the
   loop itself is `cos_run`.
 * `size_t` arithmetic: `zeros = sample_set_size - ones` uses truncated
   natural subtraction, which agrees with the C `size_t` subtraction
   whenever all genotype entries lie in {0,1} (then `ones ≤ size`); the
   theorems carry that hypothesis.
-/

/-- The unknown allele: -1 in the C sources (memset with 0xFF). -/
def UNKNOWN : Int := -1

/-- The per-site data read by `ancestor_builder_make_ancestor`: the
`site_t` record of the C code with the `genotypes` pointer dereferenced to
its contents (a length `num_samples` vector of alleles). -/
structure site_t where
  frequency : Nat
  genotypes : List Nat
deriving Repr, DecidableEq

/-- `ancestor_builder_get_consistent_samples` (lines 90-105): the list of
sample indices j < num_samples with genotypes[j] == 1, in increasing
order. -/
def ancestor_builder_get_consistent_samples (num_samples : Nat)
    (genotypes : List Nat) : List Nat :=
  (List.range num_samples).filter (fun j => genotypes.getD j 0 == 1)

/-- The consensus computation of `ancestor_builder_compute_older_sites`
(lines 261-269): ones summed over the working sample set, zeros the
remainder, consensus 1 when ones >= zeros and 0 otherwise. -/
def site_consensus (genotypes : List Nat) (sample_set : List Nat) : Nat :=
  let ones := sample_set.foldl (fun acc u => acc + genotypes.getD u 0) 0
  let zeros := sample_set.length - ones
  if ones ≥ zeros then 1 else 0

/-- The removal pass of `ancestor_builder_compute_older_sites`
(lines 271-288): samples whose disagree flag is set and which disagree
with the consensus again are marked (-1) and then repacked, i.e. the
sample set is filtered. -/
def cos_removal (genotypes : List Nat) (disagree : Nat → Bool)
    (consensus : Nat) (sample_set : List Nat) : List Nat :=
  sample_set.filter (fun u => !(disagree u && (genotypes.getD u 0 != consensus)))

/-- Loop state of `ancestor_builder_compute_older_sites`: the ancestor
buffer, the working sample set, the per-sample disagree flags and the
last written site. -/
structure cos_state where
  ancestor : Nat → Int
  sample_set : List Nat
  disagree : Nat → Bool
  last_site : Nat

/-- One iteration of the loop of `ancestor_builder_compute_older_sites`
(lines 253-301) at site l: compute the consensus, remove two-strike
disagreeing samples, break (`none`) when the repacked set has size at most
`min_size`, otherwise write the consensus to the ancestor, advance
`last_site` and reset the disagree flags of the remaining samples. -/
def cos_step (sites : List site_t) (min_size : Nat) (st : cos_state)
    (l : Nat) : Option cos_state :=
  let g := (sites.getD l ⟨0, []⟩).genotypes
  let consensus := site_consensus g st.sample_set
  let S2 := cos_removal g st.disagree consensus st.sample_set
  if S2.length ≤ min_size then none
  else some
    { ancestor := fun i => if i = l then ((consensus : Nat) : Int) else st.ancestor i
      sample_set := S2
      disagree := fun u => if u ∈ S2 then (g.getD u 0 != consensus) else st.disagree u
      last_site := l }

/-- The site loop of `ancestor_builder_compute_older_sites`: iterate
`cos_step` over the older sites, stopping at the first break. -/
def cos_run (sites : List site_t) (min_size : Nat) (st : cos_state) :
    List Nat → cos_state
  | [] => st
  | l :: rest =>
    match cos_step sites min_size st l with
    | none => st
    | some st2 => cos_run sites min_size st2 rest

/-- `ancestor_builder_compute_older_sites` (lines 231-306): the disagree
flags start all false (calloc), `last_site` starts at the focal site,
`min_sample_set_size` is half the sample set size at entry, and the
function returns the updated ancestor buffer and the last written site. -/
def ancestor_builder_compute_older_sites (sites : List site_t)
    (focal_site : Nat) (ancestor : Nat → Int) (older_sites : List Nat)
    (sample_set : List Nat) : (Nat → Int) × Nat :=
  let st := cos_run sites (sample_set.length / 2)
    { ancestor := ancestor, sample_set := sample_set
      disagree := fun _ => false, last_site := focal_site } older_sites
  (st.ancestor, st.last_site)

/-- The rightward older-site collection of `ancestor_builder_make_ancestor`
(lines 335-341): all sites l > focal_site with frequency > the focal
frequency, in increasing order. -/
def older_sites_right (sites : List site_t) (focal_site f : Nat) : List Nat :=
  (List.range sites.length).filter
    (fun l => focal_site < l && f < (sites.getD l ⟨0, []⟩).frequency)

/-- The leftward older-site collection of `ancestor_builder_make_ancestor`
(lines 360-366): all sites l < focal_site with frequency > the focal
frequency, in decreasing order. -/
def older_sites_left (sites : List site_t) (focal_site f : Nat) : List Nat :=
  ((List.range focal_site).filter
    (fun l => f < (sites.getD l ⟨0, []⟩).frequency)).reverse

/-- The younger-site fill loops of `ancestor_builder_make_ancestor`
(lines 352-356 and 377-381): every site strictly between lo and hi with
frequency at most the focal frequency is set to 0. -/
def fill_zero (sites : List site_t) (f lo hi : Nat) (anc : Nat → Int) :
    Nat → Int :=
  fun i =>
    if lo < i ∧ i < hi ∧ (sites.getD i ⟨0, []⟩).frequency ≤ f then 0
    else anc i

/-- `ancestor_builder_make_ancestor` (lines 309-418) for a single focal
site (the code asserts num_focal_sites == 1): initialise the ancestor to
UNKNOWN with 1 at the focal site, run the consensus propagation rightwards
then leftwards, fill the younger sites in between with 0, and return
(ancestor, start, end). -/
def ancestor_builder_make_ancestor (num_samples : Nat) (sites : List site_t)
    (focal_site : Nat) : (Nat → Int) × Nat × Nat :=
  let f := (sites.getD focal_site ⟨0, []⟩).frequency
  let S := ancestor_builder_get_consistent_samples num_samples
    (sites.getD focal_site ⟨0, []⟩).genotypes
  let anc0 : Nat → Int := fun i => if i = focal_site then 1 else UNKNOWN
  let rR := ancestor_builder_compute_older_sites sites focal_site anc0
    (older_sites_right sites focal_site f) S
  let ancR := fill_zero sites f focal_site rR.2 rR.1
  let rL := ancestor_builder_compute_older_sites sites focal_site ancR
    (older_sites_left sites focal_site f) S
  let ancL := fill_zero sites f rL.2 focal_site rL.1
  (ancL, rL.2, rR.2 + 1)

/-- Model of the tail of `Threader_run` in src/_tsinfermodule.c
(lines 373-390), after parameter validation and successful allocation of
the mutations scratch buffer: the C code assigns the return value of
`threader_run` to `err`, then immediately executes `err = 0;` before the
`if (err != 0)` check, so the error branch tests the constant 0. On the
success branch the mutations array is returned. -/
def Threader_run_tail (hmm_err : Int) (mutations : List Nat) :
    Option (List Nat) :=
  let err : Int := hmm_err
  let err : Int := 0
  if err ≠ 0 then none else some mutations

/-!
Embedding of the builder state mutated by `ancestor_builder_add_site`
(lines 421-478) and read by `ancestor_builder_finalise` (lines 584-651).
The arena-allocated canonical genotype buffers are modelled by allocation
identifiers (`gid`), handed out by a counter `next_gid`: two sites share
the same canonical buffer exactly when they store the same `gid`.
-/

/-- Memcmp on genotype vectors (`cmp_pattern_map`, lines 37-43):
lexicographic comparison of the byte sequences. -/
def allele_cmp : List Nat → List Nat → Ordering
  | [], [] => .eq
  | [], _ :: _ => .lt
  | _ :: _, [] => .gt
  | a :: as, b :: bs =>
    if a < b then .lt
    else if b < a then .gt
    else allele_cmp as bs

/-- `pattern_map_t`: one entry per distinct genotype pattern at a given
frequency; `gid` is the identity of the arena-owned canonical buffer,
`genotypes` its contents, `sites` the front-inserted list of site ids
sharing the pattern. -/
structure pattern_map_t where
  gid : Nat
  genotypes : List Nat
  num_sites : Nat
  sites : List Nat
deriving Repr, DecidableEq

/-- `site_t` as stored in the builder (frequency plus the genotypes
pointer, modelled as the optional `gid` of the canonical buffer). -/
structure site_ref_t where
  frequency : Nat
  genotypes : Option Nat
deriving Repr, DecidableEq

/-- The AVL insertion of `avl_insert_node` with `cmp_pattern_map`: keep
the bucket sorted by the lexicographic order of the genotype vectors (the
iteration order of the AVL tree is its key order). -/
def pattern_insert (e : pattern_map_t) :
    List pattern_map_t → List pattern_map_t
  | [] => [e]
  | x :: xs =>
    match allele_cmp e.genotypes x.genotypes with
    | .lt => e :: x :: xs
    | _ => x :: pattern_insert e xs

/-- `ancestor_builder_t`: sites array, one pattern map per frequency in
0..num_samples, and the allocation counter for canonical buffers. -/
structure ancestor_builder_t where
  num_samples : Nat
  num_sites : Nat
  sites : List site_ref_t
  frequency_map : List (List pattern_map_t)
  next_gid : Nat
deriving Repr, DecidableEq

/-- `ancestor_builder_alloc` (lines 45-78): zeroed sites array and empty
frequency buckets. -/
def ancestor_builder_alloc (num_samples num_sites : Nat) :
    ancestor_builder_t :=
  { num_samples := num_samples
    num_sites := num_sites
    sites := List.replicate num_sites ⟨0, none⟩
    frequency_map := List.replicate (num_samples + 1) []
    next_gid := 0 }

/-- `ancestor_builder_add_site` (lines 421-478): record the frequency;
when frequency > 1, search bucket `frequency` for the pattern.  On a hit
the site reuses the canonical buffer of the found entry, whose site count
is incremented and whose site list gets l front-inserted; on a miss a
fresh canonical buffer (fresh gid, contents copied from the input) and a
fresh entry are created (the C code creates it with num_sites = 0 and an
empty list and immediately increments and front-inserts, so the entry
enters the map with num_sites = 1 and sites = [l]). -/
def ancestor_builder_add_site (b : ancestor_builder_t) (l : Nat)
    (frequency : Nat) (genotypes : List Nat) : ancestor_builder_t :=
  if 1 < frequency then
    let bucket := b.frequency_map.getD frequency []
    match bucket.find? (fun e => e.genotypes == genotypes) with
    | some e =>
      { b with
        sites := b.sites.set l ⟨frequency, some e.gid⟩
        frequency_map := b.frequency_map.set frequency
          (bucket.map (fun x =>
            if x.genotypes == genotypes then
              { x with num_sites := x.num_sites + 1, sites := l :: x.sites }
            else x)) }
    | none =>
      { b with
        sites := b.sites.set l ⟨frequency, some b.next_gid⟩
        frequency_map := b.frequency_map.set frequency
          (pattern_insert ⟨b.next_gid, genotypes, 1, [l]⟩ bucket)
        next_gid := b.next_gid + 1 }
  else
    { b with
      sites := b.sites.set l
        ⟨frequency, (b.sites.getD l ⟨0, none⟩).genotypes⟩ }

/-- One `ancestor_builder_add_site` call: site id, frequency, genotype
column. -/
structure site_add where
  id : Nat
  frequency : Nat
  genotypes : List Nat
deriving Repr, DecidableEq

/-- A builder obtained by a sequence of `ancestor_builder_add_site` calls
on a fresh builder. -/
def build_builder (num_samples num_sites : Nat) (adds : List site_add) :
    ancestor_builder_t :=
  adds.foldl
    (fun b a => ancestor_builder_add_site b a.id a.frequency a.genotypes)
    (ancestor_builder_alloc num_samples num_sites)

/-- `ancestor_descriptor_t`: frequency and focal sites of one emitted
ancestor. -/
structure ancestor_descriptor_t where
  frequency : Nat
  focal_sites : List Nat
deriving Repr, DecidableEq

/-- The materialisation of the focal-sites array of one pattern map entry
in `ancestor_builder_finalise` (lines 620-624): the front-inserted site
list is written back to front, i.e. reversed. -/
def materialise_focal_sites (e : pattern_map_t) : List Nat :=
  e.sites.reverse

/-- The per-entry descriptor emission of `ancestor_builder_finalise`
(lines 606-645): a first descriptor takes the whole focal-sites array,
then the split loop (the `if (true)` branch, lines 632-645) cuts it after
every site, so the net effect is one descriptor per site of the array, in
array order, all with the bucket frequency.  The empty case is unreachable
(every entry holds at least one site). -/
def emit_entry (f : Nat) : List Nat → List ancestor_descriptor_t
  | [] => [⟨f, []⟩]
  | [s] => [⟨f, [s]⟩]
  | s :: rest => ⟨f, [s]⟩ :: emit_entry f rest

/-- The frequency walk of `ancestor_builder_finalise` (line 606):
j = num_samples, num_samples - 1, ..., 2. -/
def finalise_frequencies (num_samples : Nat) : List Nat :=
  (List.range' 2 (num_samples - 1)).reverse

/-- `ancestor_builder_finalise` (lines 584-651): walk the buckets in
decreasing frequency order, each bucket in its key order, and emit the
descriptors of every entry. -/
def ancestor_builder_finalise (b : ancestor_builder_t) :
    List ancestor_descriptor_t :=
  (finalise_frequencies b.num_samples).flatMap (fun f =>
    (b.frequency_map.getD f []).flatMap (fun e =>
      emit_entry f (materialise_focal_sites e)))

/-! ### Helper lemmas -/

theorem foldl_add_getD (g : List Nat) (S : List Nat) (a : Nat) :
    S.foldl (fun acc u => acc + g.getD u 0) a
      = a + (S.map (fun u => g.getD u 0)).sum := by
  induction S generalizing a with
  | nil => simp
  | cons u rest ih =>
    rw [List.foldl_cons, ih, List.map_cons, List.sum_cons]
    omega

theorem getD_le_one (g : List Nat) (h : ∀ x ∈ g, x ≤ 1) (u : Nat) :
    g.getD u 0 ≤ 1 := by
  by_cases hu : u < g.length
  · rw [List.getD_eq_getElem g 0 hu]
    exact h _ (List.getElem_mem hu)
  · rw [List.getD_eq_default g 0 (le_of_not_lt hu)]
    omega

theorem sum_eq_countP_one (L : List Nat) (h : ∀ v ∈ L, v ≤ 1) :
    L.sum = L.countP (fun v => v == 1) := by
  induction L with
  | nil => simp
  | cons v rest ih =>
    have hv : v ≤ 1 := h v (by simp)
    have hrest := ih (fun x hx => h x (by simp [hx]))
    interval_cases v <;> simp [List.countP_cons, hrest] <;> omega

theorem countP_zero_one_length (L : List Nat) (h : ∀ v ∈ L, v ≤ 1) :
    L.countP (fun v => v == 0) + L.countP (fun v => v == 1) = L.length := by
  induction L with
  | nil => simp
  | cons v rest ih =>
    have hv : v ≤ 1 := h v (by simp)
    have hrest := ih (fun x hx => h x (by simp [hx]))
    interval_cases v <;> simp [List.countP_cons] <;> omega

/-- Unfolding equation for `cos_step` when the loop does not break. -/
theorem cos_step_eq_some (sites : List site_t) (min_size : Nat)
    (st st2 : cos_state) (l : Nat)
    (hstep : cos_step sites min_size st l = some st2) :
    let g := (sites.getD l ⟨0, []⟩).genotypes
    let consensus := site_consensus g st.sample_set
    let S2 := cos_removal g st.disagree consensus st.sample_set
    ¬ S2.length ≤ min_size ∧
    st2 = { ancestor := fun i => if i = l then ((consensus : Nat) : Int)
                                 else st.ancestor i
            sample_set := S2
            disagree := fun u => if u ∈ S2 then (g.getD u 0 != consensus)
                                 else st.disagree u
            last_site := l } := by
  intro g consensus S2
  rw [cos_step] at hstep
  by_cases hbr : S2.length ≤ min_size
  · rw [if_pos hbr] at hstep; exact absurd hstep (by simp)
  · rw [if_neg hbr] at hstep
    exact ⟨hbr, (Option.some_inj.mp hstep).symm⟩

theorem site_consensus_le_one (g : List Nat) (S : List Nat) :
    site_consensus g S ≤ 1 := by
  simp only [site_consensus]
  split <;> omega

theorem cos_run_cons_none (sites : List site_t) (min_size : Nat)
    (st : cos_state) (l : Nat) (rest : List Nat)
    (h : cos_step sites min_size st l = none) :
    cos_run sites min_size st (l :: rest) = st := by
  rw [cos_run, h]

theorem cos_run_cons_some (sites : List site_t) (min_size : Nat)
    (st st2 : cos_state) (l : Nat) (rest : List Nat)
    (h : cos_step sites min_size st l = some st2) :
    cos_run sites min_size st (l :: rest) = cos_run sites min_size st2 rest := by
  rw [cos_run, h]

/-- Behaviour of the site loop of `ancestor_builder_compute_older_sites` on
an increasing older-site list lying strictly above the initial
`last_site`: `last_site` never decreases, and moves only to a member of
the list; the ancestor changes only at list members in
`(st.last_site, result.last_site]`; and every list member up to the final
`last_site` holds 0 or 1 afterwards. -/
theorem cos_run_spec_asc (sites : List site_t) (min_size : Nat) :
    ∀ (older : List Nat) (st : cos_state),
      older.Pairwise (· < ·) → (∀ x ∈ older, st.last_site < x) →
      (st.last_site ≤ (cos_run sites min_size st older).last_site ∧
       ((cos_run sites min_size st older).last_site ≠ st.last_site →
         (cos_run sites min_size st older).last_site ∈ older) ∧
       (∀ i, (cos_run sites min_size st older).ancestor i ≠ st.ancestor i →
         i ∈ older ∧ st.last_site < i ∧
           i ≤ (cos_run sites min_size st older).last_site) ∧
       (∀ i ∈ older, i ≤ (cos_run sites min_size st older).last_site →
         ((cos_run sites min_size st older).ancestor i = 0 ∨
          (cos_run sites min_size st older).ancestor i = 1))) := by
  intro older
  induction older with
  | nil =>
    intro st _ _
    simp [cos_run]
  | cons l rest ih =>
    intro st hpw hgt
    obtain ⟨hpw1, hpw2⟩ := List.pairwise_cons.mp hpw
    have hl : st.last_site < l := hgt l (by simp)
    cases hstep : cos_step sites min_size st l with
    | none =>
      rw [cos_run_cons_none sites min_size st l rest hstep]
      refine ⟨le_refl _, fun h => absurd rfl h, fun i hi => absurd rfl hi, ?_⟩
      intro i hi hile
      have := hgt i hi
      omega
    | some st2 =>
      rw [cos_run_cons_some sites min_size st st2 l rest hstep]
      obtain ⟨-, hst2⟩ := cos_step_eq_some sites min_size st st2 l hstep
      have hlast : st2.last_site = l := by rw [hst2]
      have hanc : ∀ i, st2.ancestor i = if i = l
          then ((site_consensus (sites.getD l ⟨0, []⟩).genotypes
            st.sample_set : Nat) : Int) else st.ancestor i := by
        intro i; rw [hst2]
      obtain ⟨ih1, ih2, ih3, ih4⟩ := ih st2 hpw2 (fun x hx => by
        rw [hlast]; exact hpw1 x hx)
      rw [hlast] at ih1
      refine ⟨by omega, ?_, ?_, ?_⟩
      · intro hne
        by_cases hrl : (cos_run sites min_size st2 rest).last_site = l
        · simp [hrl]
        · exact List.mem_cons_of_mem _ (ih2 (by rw [hlast]; exact hrl))
      · intro i hne
        by_cases hch : (cos_run sites min_size st2 rest).ancestor i
            = st2.ancestor i
        · rw [hch, hanc i] at hne
          by_cases hil : i = l
          · subst hil
            exact ⟨by simp, hl, by omega⟩
          · rw [if_neg hil] at hne
            exact absurd rfl hne
        · obtain ⟨hmem, hlt, hle⟩ := ih3 i hch
          rw [hlast] at hlt
          exact ⟨List.mem_cons_of_mem _ hmem, by omega, hle⟩
      · intro i hi hile
        rcases List.mem_cons.mp hi with hil | hir
        · subst hil
          have hnotch : (cos_run sites min_size st2 rest).ancestor i
              = st2.ancestor i := by
            by_contra hch
            obtain ⟨-, hlt, -⟩ := ih3 i hch
            rw [hlast] at hlt
            omega
          rw [hnotch, hanc i, if_pos rfl]
          have := site_consensus_le_one
            (sites.getD i ⟨0, []⟩).genotypes st.sample_set
          omega
        · exact ih4 i hir hile

/-- Behaviour of the site loop on a decreasing older-site list lying
strictly below the initial `last_site`: the mirror image of
`cos_run_spec_asc`. -/
theorem cos_run_spec_desc (sites : List site_t) (min_size : Nat) :
    ∀ (older : List Nat) (st : cos_state),
      older.Pairwise (· > ·) → (∀ x ∈ older, x < st.last_site) →
      ((cos_run sites min_size st older).last_site ≤ st.last_site ∧
       ((cos_run sites min_size st older).last_site ≠ st.last_site →
         (cos_run sites min_size st older).last_site ∈ older) ∧
       (∀ i, (cos_run sites min_size st older).ancestor i ≠ st.ancestor i →
         i ∈ older ∧ i < st.last_site ∧
           (cos_run sites min_size st older).last_site ≤ i) ∧
       (∀ i ∈ older, (cos_run sites min_size st older).last_site ≤ i →
         ((cos_run sites min_size st older).ancestor i = 0 ∨
          (cos_run sites min_size st older).ancestor i = 1))) := by
  intro older
  induction older with
  | nil =>
    intro st _ _
    simp [cos_run]
  | cons l rest ih =>
    intro st hpw hlt0
    obtain ⟨hpw1, hpw2⟩ := List.pairwise_cons.mp hpw
    have hl : l < st.last_site := hlt0 l (by simp)
    cases hstep : cos_step sites min_size st l with
    | none =>
      rw [cos_run_cons_none sites min_size st l rest hstep]
      refine ⟨le_refl _, fun h => absurd rfl h, fun i hi => absurd rfl hi, ?_⟩
      intro i hi hile
      have := hlt0 i hi
      omega
    | some st2 =>
      rw [cos_run_cons_some sites min_size st st2 l rest hstep]
      obtain ⟨-, hst2⟩ := cos_step_eq_some sites min_size st st2 l hstep
      have hlast : st2.last_site = l := by rw [hst2]
      have hanc : ∀ i, st2.ancestor i = if i = l
          then ((site_consensus (sites.getD l ⟨0, []⟩).genotypes
            st.sample_set : Nat) : Int) else st.ancestor i := by
        intro i; rw [hst2]
      obtain ⟨ih1, ih2, ih3, ih4⟩ := ih st2 hpw2 (fun x hx => by
        rw [hlast]; exact hpw1 x hx)
      rw [hlast] at ih1
      refine ⟨by omega, ?_, ?_, ?_⟩
      · intro hne
        by_cases hrl : (cos_run sites min_size st2 rest).last_site = l
        · simp [hrl]
        · exact List.mem_cons_of_mem _ (ih2 (by rw [hlast]; exact hrl))
      · intro i hne
        by_cases hch : (cos_run sites min_size st2 rest).ancestor i
            = st2.ancestor i
        · rw [hch, hanc i] at hne
          by_cases hil : i = l
          · subst hil
            exact ⟨by simp, hl, by omega⟩
          · rw [if_neg hil] at hne
            exact absurd rfl hne
        · obtain ⟨hmem, hlt, hle⟩ := ih3 i hch
          rw [hlast] at hlt
          exact ⟨List.mem_cons_of_mem _ hmem, by omega, hle⟩
      · intro i hi hile
        rcases List.mem_cons.mp hi with hil | hir
        · subst hil
          have hnotch : (cos_run sites min_size st2 rest).ancestor i
              = st2.ancestor i := by
            by_contra hch
            obtain ⟨-, hlt, -⟩ := ih3 i hch
            rw [hlast] at hlt
            omega
          rw [hnotch, hanc i, if_pos rfl]
          have := site_consensus_le_one
            (sites.getD i ⟨0, []⟩).genotypes st.sample_set
          omega
        · exact ih4 i hir hile

theorem fill_zero_apply (sites : List site_t) (f lo hi : Nat)
    (anc : Nat → Int) (i : Nat) :
    fill_zero sites f lo hi anc i
      = if lo < i ∧ i < hi ∧ (sites.getD i ⟨0, []⟩).frequency ≤ f then 0
        else anc i := rfl

theorem older_sites_right_pairwise (sites : List site_t) (focal f : Nat) :
    (older_sites_right sites focal f).Pairwise (· < ·) :=
  (List.pairwise_lt_range _).filter _

theorem older_sites_left_pairwise (sites : List site_t) (focal f : Nat) :
    (older_sites_left sites focal f).Pairwise (· > ·) := by
  unfold older_sites_left
  rw [List.pairwise_reverse]
  exact (List.pairwise_lt_range _).filter _

theorem mem_older_sites_right (sites : List site_t) (focal f x : Nat) :
    x ∈ older_sites_right sites focal f ↔
      x < sites.length ∧ focal < x ∧
        f < (sites.getD x ⟨0, []⟩).frequency := by
  unfold older_sites_right
  simp [List.mem_filter, List.mem_range, and_assoc]

theorem mem_older_sites_left (sites : List site_t) (focal f x : Nat) :
    x ∈ older_sites_left sites focal f ↔
      x < focal ∧ f < (sites.getD x ⟨0, []⟩).frequency := by
  unfold older_sites_left
  simp [List.mem_filter, List.mem_range]

/-- Core of the correctness argument for `ancestor_builder_make_ancestor`,
stated over the two consensus-propagation runs and the two fill passes
that the function composes. -/
theorem make_ancestor_core (sites : List site_t) (focal f : Nat)
    (S : List Nat) (stR stL : cos_state) (ancR ancL : Nat → Int)
    (hf : f = (sites.getD focal ⟨0, []⟩).frequency)
    (hstR : stR = cos_run sites (S.length / 2)
        ⟨fun i => if i = focal then 1 else UNKNOWN, S, fun _ => false, focal⟩
        (older_sites_right sites focal f))
    (hancR : ancR = fill_zero sites f focal stR.last_site stR.ancestor)
    (hstL : stL = cos_run sites (S.length / 2)
        ⟨ancR, S, fun _ => false, focal⟩ (older_sites_left sites focal f))
    (hancL : ancL = fill_zero sites f stL.last_site focal stL.ancestor)
    (hfocal : focal < sites.length) :
    stL.last_site ≤ focal ∧ focal < stR.last_site + 1 ∧
    ancL focal = 1 ∧
    (∀ i, stL.last_site ≤ i → i < stR.last_site + 1 →
      ancL i = 0 ∨ ancL i = 1) ∧
    (∀ i, i < sites.length → (i < stL.last_site ∨ stR.last_site + 1 ≤ i) →
      ancL i = UNKNOWN) := by
  obtain ⟨hR1, hR2, hR3, hR4⟩ := cos_run_spec_asc sites (S.length / 2)
    (older_sites_right sites focal f)
    ⟨fun i => if i = focal then 1 else UNKNOWN, S, fun _ => false, focal⟩
    (older_sites_right_pairwise sites focal f)
    (fun x hx => ((mem_older_sites_right sites focal f x).mp hx).2.1)
  rw [← hstR] at hR1 hR2 hR3 hR4
  have hR1a : focal ≤ stR.last_site := hR1
  have hR2a : stR.last_site ≠ focal →
      stR.last_site ∈ older_sites_right sites focal f := hR2
  have hR3a : ∀ i, stR.ancestor i ≠ (if i = focal then (1 : Int) else UNKNOWN) →
      i ∈ older_sites_right sites focal f ∧ focal < i ∧
        i ≤ stR.last_site := hR3
  have hR4a : ∀ i ∈ older_sites_right sites focal f, i ≤ stR.last_site →
      stR.ancestor i = 0 ∨ stR.ancestor i = 1 := hR4
  obtain ⟨hL1, hL2, hL3, hL4⟩ := cos_run_spec_desc sites (S.length / 2)
    (older_sites_left sites focal f)
    ⟨ancR, S, fun _ => false, focal⟩
    (older_sites_left_pairwise sites focal f)
    (fun x hx => ((mem_older_sites_left sites focal f x).mp hx).1)
  rw [← hstL] at hL1 hL2 hL3 hL4
  have hL1a : stL.last_site ≤ focal := hL1
  have hL2a : stL.last_site ≠ focal →
      stL.last_site ∈ older_sites_left sites focal f := hL2
  have hL3a : ∀ i, stL.ancestor i ≠ ancR i →
      i ∈ older_sites_left sites focal f ∧ i < focal ∧
        stL.last_site ≤ i := hL3
  have hL4a : ∀ i ∈ older_sites_left sites focal f, stL.last_site ≤ i →
      stL.ancestor i = 0 ∨ stL.ancestor i = 1 := hL4
  have hlastR_lt : stR.last_site < sites.length := by
    by_cases h : stR.last_site = focal
    · rw [h]; exact hfocal
    · exact ((mem_older_sites_right sites focal f _).mp (hR2a h)).1
  have hval_focal : ancL focal = 1 := by
    rw [hancL, fill_zero_apply,
      if_neg (fun hc => absurd hc.2.1 (lt_irrefl focal))]
    have h1 : stL.ancestor focal = ancR focal := by
      by_contra hch
      obtain ⟨-, hlt, -⟩ := hL3a focal hch
      exact absurd hlt (lt_irrefl _)
    rw [h1, hancR, fill_zero_apply,
      if_neg (fun hc => absurd hc.1 (lt_irrefl focal))]
    have h2 : stR.ancestor focal
        = (if focal = focal then (1 : Int) else UNKNOWN) := by
      by_contra hch
      obtain ⟨-, hlt, -⟩ := hR3a focal hch
      exact absurd hlt (lt_irrefl _)
    rw [h2, if_pos rfl]
  refine ⟨hL1a, by omega, hval_focal, ?_, ?_⟩
  · intro i hsi hie
    rcases lt_trichotomy i focal with hlt | heq | hgt
    · rw [hancL, fill_zero_apply]
      by_cases hcond : stL.last_site < i ∧ i < focal ∧
          (sites.getD i ⟨0, []⟩).frequency ≤ f
      · rw [if_pos hcond]; exact Or.inl rfl
      · rw [if_neg hcond]
        by_cases hfi : f < (sites.getD i ⟨0, []⟩).frequency
        · exact hL4a i ((mem_older_sites_left sites focal f i).mpr
            ⟨hlt, hfi⟩) hsi
        · exfalso
          have hieq : i = stL.last_site := by omega
          have hne : stL.last_site ≠ focal := by omega
          have hmem := ((mem_older_sites_left sites focal f _).mp
            (hL2a hne)).2
          rw [← hieq] at hmem
          omega
    · rw [heq]; exact Or.inr hval_focal
    · have hile : i ≤ stR.last_site := by omega
      rw [hancL, fill_zero_apply,
        if_neg (fun hc => absurd hc.2.1 (by omega))]
      have h1 : stL.ancestor i = ancR i := by
        by_contra hch
        obtain ⟨-, hlt, -⟩ := hL3a i hch
        omega
      rw [h1, hancR, fill_zero_apply]
      by_cases hcond : focal < i ∧ i < stR.last_site ∧
          (sites.getD i ⟨0, []⟩).frequency ≤ f
      · rw [if_pos hcond]; exact Or.inl rfl
      · rw [if_neg hcond]
        by_cases hfi : f < (sites.getD i ⟨0, []⟩).frequency
        · exact hR4a i ((mem_older_sites_right sites focal f i).mpr
            ⟨by omega, hgt, hfi⟩) hile
        · exfalso
          have hieq : i = stR.last_site := by omega
          have hne : stR.last_site ≠ focal := by omega
          have hmem := ((mem_older_sites_right sites focal f _).mp
            (hR2a hne)).2.2
          rw [← hieq] at hmem
          omega
  · intro i hilen hout
    rcases hout with hlo | hhi
    · rw [hancL, fill_zero_apply,
        if_neg (fun hc => absurd hc.1 (by omega))]
      have h1 : stL.ancestor i = ancR i := by
        by_contra hch
        obtain ⟨-, -, hge⟩ := hL3a i hch
        omega
      have hif : i < focal := by omega
      rw [h1, hancR, fill_zero_apply,
        if_neg (fun hc => absurd hc.1 (by omega))]
      have h2 : stR.ancestor i
          = (if i = focal then (1 : Int) else UNKNOWN) := by
        by_contra hch
        obtain ⟨-, hgt2, -⟩ := hR3a i hch
        omega
      rw [h2, if_neg (by omega)]
    · have hif : focal < i := by omega
      rw [hancL, fill_zero_apply,
        if_neg (fun hc => absurd hc.2.1 (by omega))]
      have h1 : stL.ancestor i = ancR i := by
        by_contra hch
        obtain ⟨-, hlt2, -⟩ := hL3a i hch
        omega
      rw [h1, hancR, fill_zero_apply,
        if_neg (fun hc => absurd hc.2.1 (by omega))]
      have h2 : stR.ancestor i
          = (if i = focal then (1 : Int) else UNKNOWN) := by
        by_contra hch
        obtain ⟨-, -, hle2⟩ := hR3a i hch
        omega
      rw [h2, if_neg (by omega)]

/-! ### Claim theorems: consensus loop (C5, C6, C7) and Threader (C4) -/

/-- C4: in `Threader_run` (src/_tsinfermodule.c lines 373-390), once
validation and the scratch allocation succeed, the return value of the
HMM call `threader_run` is never reported: `err` is overwritten with 0
before it is checked, so the error branch is unreachable and every such
invocation is treated as success (the mutations array is returned). -/
theorem threader_run_error_discarded (hmm_err : Int) (mutations : List Nat) :
    Threader_run_tail hmm_err mutations = some mutations := rfl

/-- C5: at every processed older site, the consensus written by the loop of
`ancestor_builder_compute_older_sites` is 1 exactly when the number of
ones over the current working sample set is at least the number of zeros,
and 0 exactly when the ones are fewer (ties favour the derived allele 1). -/
theorem compute_older_sites_consensus_majority (sites : List site_t)
    (min_size : Nat) (st st2 : cos_state) (l : Nat) (g : List Nat)
    (hg : g = (sites.getD l ⟨0, []⟩).genotypes)
    (h01 : ∀ x ∈ g, x ≤ 1)
    (hstep : cos_step sites min_size st l = some st2) :
    st2.ancestor l = ((site_consensus g st.sample_set : Nat) : Int) ∧
    (site_consensus g st.sample_set = 1 ↔
      st.sample_set.countP (fun u => g.getD u 0 == 0)
        ≤ st.sample_set.countP (fun u => g.getD u 0 == 1)) ∧
    (site_consensus g st.sample_set = 0 ↔
      st.sample_set.countP (fun u => g.getD u 0 == 1)
        < st.sample_set.countP (fun u => g.getD u 0 == 0)) := by
  obtain ⟨-, hst2⟩ := cos_step_eq_some sites min_size st st2 l hstep
  rw [← hg] at hst2
  have hmap : ∀ v ∈ st.sample_set.map (fun u => g.getD u 0), v ≤ 1 := by
    intro v hv
    obtain ⟨u, -, rfl⟩ := List.mem_map.mp hv
    exact getD_le_one g h01 u
  have hones := sum_eq_countP_one _ hmap
  have hlen := countP_zero_one_length _ hmap
  rw [List.countP_map] at hones
  rw [List.countP_map, List.countP_map, List.length_map] at hlen
  simp only [Function.comp_def] at hones hlen
  have key : site_consensus g st.sample_set
      = if st.sample_set.length - (st.sample_set.map (fun u => g.getD u 0)).sum
          ≤ (st.sample_set.map (fun u => g.getD u 0)).sum then 1 else 0 := by
    simp only [site_consensus, foldl_add_getD, Nat.zero_add, ge_iff_le]
  refine ⟨by rw [hst2]; simp, ?_, ?_⟩
  · rw [key, hones]
    constructor
    · intro h1
      by_contra hlt
      rw [if_neg (by omega)] at h1
      omega
    · intro hle
      rw [if_pos (by omega)]
  · rw [key, hones]
    constructor
    · intro h0
      by_contra hge
      rw [if_pos (by omega)] at h0
      omega
    · intro hlt
      rw [if_neg (by omega)]

/-- C5 witness: a concrete step where the majority rule is visible. -/
theorem compute_older_sites_consensus_majority_witness :
    ([1, 1, 0] : List Nat)
        = (([⟨3, [1, 1, 0]⟩] : List site_t).getD 0 ⟨0, []⟩).genotypes ∧
    (∀ x ∈ ([1, 1, 0] : List Nat), x ≤ 1) ∧
    cos_step [⟨3, [1, 1, 0]⟩] 1
        ⟨fun _ => UNKNOWN, [0, 1, 2], fun _ => false, 0⟩ 0
      = some ((cos_step [⟨3, [1, 1, 0]⟩] 1
        ⟨fun _ => UNKNOWN, [0, 1, 2], fun _ => false, 0⟩ 0).getD
          ⟨fun _ => 0, [], fun _ => false, 0⟩) ∧
    (((cos_step [⟨3, [1, 1, 0]⟩] 1
        ⟨fun _ => UNKNOWN, [0, 1, 2], fun _ => false, 0⟩ 0).getD
          ⟨fun _ => 0, [], fun _ => false, 0⟩).ancestor 0
      = ((site_consensus [1, 1, 0] [0, 1, 2] : Nat) : Int) ∧
    (site_consensus [1, 1, 0] [0, 1, 2] = 1 ↔
      ([0, 1, 2] : List Nat).countP (fun u => ([1, 1, 0] : List Nat).getD u 0 == 0)
        ≤ ([0, 1, 2] : List Nat).countP (fun u => ([1, 1, 0] : List Nat).getD u 0 == 1)) ∧
    (site_consensus [1, 1, 0] [0, 1, 2] = 0 ↔
      ([0, 1, 2] : List Nat).countP (fun u => ([1, 1, 0] : List Nat).getD u 0 == 1)
        < ([0, 1, 2] : List Nat).countP (fun u => ([1, 1, 0] : List Nat).getD u 0 == 0))) :=
  ⟨rfl, by decide, rfl,
    compute_older_sites_consensus_majority [⟨3, [1, 1, 0]⟩] 1
      ⟨fun _ => UNKNOWN, [0, 1, 2], fun _ => false, 0⟩ _ 0 [1, 1, 0]
      rfl (by decide) rfl⟩

/-- C1: for a finalised builder (num_samples at least 2, every genotype
entry in {0, 1}) and a focal site taken from a finalised descriptor (hence
of frequency at least 2), `ancestor_builder_make_ancestor` with a single
focal site returns (start, end) with start ≤ focal_site < end, sets
ancestor[focal_site] = 1, writes a value in {0, 1} at every index of
[start, end), and leaves every index outside [start, end) at UNKNOWN. -/
theorem make_ancestor_spec (ns : Nat) (sites : List site_t) (focal : Nat)
    (hns : 2 ≤ ns)
    (hfocal : focal < sites.length)
    (hg : ∀ s ∈ sites, ∀ x ∈ s.genotypes, x ≤ 1)
    (hfreq : 2 ≤ (sites.getD focal ⟨0, []⟩).frequency) :
    (ancestor_builder_make_ancestor ns sites focal).2.1 ≤ focal ∧
    focal < (ancestor_builder_make_ancestor ns sites focal).2.2 ∧
    (ancestor_builder_make_ancestor ns sites focal).1 focal = 1 ∧
    (∀ i, (ancestor_builder_make_ancestor ns sites focal).2.1 ≤ i →
      i < (ancestor_builder_make_ancestor ns sites focal).2.2 →
      (ancestor_builder_make_ancestor ns sites focal).1 i = 0 ∨
      (ancestor_builder_make_ancestor ns sites focal).1 i = 1) ∧
    (∀ i, i < sites.length →
      (i < (ancestor_builder_make_ancestor ns sites focal).2.1 ∨
       (ancestor_builder_make_ancestor ns sites focal).2.2 ≤ i) →
      (ancestor_builder_make_ancestor ns sites focal).1 i = UNKNOWN) := by
  obtain ⟨h1, h2, h3, h4, h5⟩ := make_ancestor_core sites focal
    ((sites.getD focal ⟨0, []⟩).frequency)
    (ancestor_builder_get_consistent_samples ns
      (sites.getD focal ⟨0, []⟩).genotypes)
    _ _ _ _ rfl rfl rfl rfl rfl hfocal
  exact ⟨h1, h2, h3, h4, h5⟩

/-- C1 witness: the builder of spec scenario 2 (three samples, three
sites) with focal site 0. -/
theorem make_ancestor_spec_witness :
    let sites : List site_t := [⟨2, [1, 1, 0]⟩, ⟨3, [1, 1, 1]⟩, ⟨2, [1, 1, 0]⟩]
    (2 ≤ 3) ∧ 0 < sites.length ∧
    (∀ s ∈ sites, ∀ x ∈ s.genotypes, x ≤ 1) ∧
    2 ≤ (sites.getD 0 ⟨0, []⟩).frequency ∧
    ((ancestor_builder_make_ancestor 3 sites 0).2.1 ≤ 0 ∧
     0 < (ancestor_builder_make_ancestor 3 sites 0).2.2 ∧
     (ancestor_builder_make_ancestor 3 sites 0).1 0 = 1 ∧
     (∀ i, (ancestor_builder_make_ancestor 3 sites 0).2.1 ≤ i →
       i < (ancestor_builder_make_ancestor 3 sites 0).2.2 →
       (ancestor_builder_make_ancestor 3 sites 0).1 i = 0 ∨
       (ancestor_builder_make_ancestor 3 sites 0).1 i = 1) ∧
     (∀ i, i < sites.length →
       (i < (ancestor_builder_make_ancestor 3 sites 0).2.1 ∨
        (ancestor_builder_make_ancestor 3 sites 0).2.2 ≤ i) →
       (ancestor_builder_make_ancestor 3 sites 0).1 i = UNKNOWN)) := by
  intro sites
  exact ⟨by decide, by decide, by decide, by decide,
    make_ancestor_spec 3 sites 0 (by decide) (by decide) (by decide) (by decide)⟩

/-- C6: in the loop of `ancestor_builder_compute_older_sites`, at a
processed (non-breaking) site l a sample u is removed from the working set
exactly when its genotype at l differs from the consensus at l AND its
disagree flag was already set (i.e. it disagreed with the consensus at the
immediately preceding written site, which is where the flags are set, see
the third conjunct); with a clear flag a single disagreement never evicts
(second conjunct). -/
theorem compute_older_sites_two_strike (sites : List site_t)
    (min_size : Nat) (st st2 : cos_state) (l u : Nat) (g : List Nat) (c : Nat)
    (hg : g = (sites.getD l ⟨0, []⟩).genotypes)
    (hc : c = site_consensus g st.sample_set)
    (hstep : cos_step sites min_size st l = some st2) :
    ((u ∈ st.sample_set ∧ u ∉ st2.sample_set) ↔
      (u ∈ st.sample_set ∧ st.disagree u = true ∧ g.getD u 0 ≠ c)) ∧
    (st.disagree u = false → (u ∈ st2.sample_set ↔ u ∈ st.sample_set)) ∧
    (u ∈ st2.sample_set → st2.disagree u = (g.getD u 0 != c)) := by
  obtain ⟨-, hst2⟩ := cos_step_eq_some sites min_size st st2 l hstep
  rw [← hg, ← hc] at hst2
  subst hst2
  refine ⟨?_, ?_, ?_⟩
  · simp only [cos_removal, List.mem_filter, Bool.not_eq_true', Bool.and_eq_true,
      bne_iff_ne, ne_eq]
    by_cases hd : st.disagree u <;> by_cases hgu : g.getD u 0 = c <;>
      simp [hd, hgu] <;> tauto
  · intro hd
    simp [cos_removal, List.mem_filter, hd]
  · intro hu
    simp only [cos_state.sample_set] at hu
    simp [hu]

/-- C6 witness: sample 1 carries a set disagree flag, disagrees with the
consensus again at the processed site and is evicted. -/
theorem compute_older_sites_two_strike_witness :
    let sites : List site_t := [⟨0, [1, 0]⟩]
    let st : cos_state := ⟨fun _ => UNKNOWN, [0, 1], fun u => u == 1, 0⟩
    let st2 := (cos_step sites 0 st 0).getD ⟨fun _ => 0, [], fun _ => false, 0⟩
    ([1, 0] : List Nat) = (sites.getD 0 ⟨0, []⟩).genotypes ∧
    (1 : Nat) = site_consensus [1, 0] st.sample_set ∧
    cos_step sites 0 st 0 = some st2 ∧
    (((1 ∈ st.sample_set ∧ 1 ∉ st2.sample_set) ↔
       (1 ∈ st.sample_set ∧ st.disagree 1 = true ∧
         ([1, 0] : List Nat).getD 1 0 ≠ 1)) ∧
     (st.disagree 1 = false → (1 ∈ st2.sample_set ↔ 1 ∈ st.sample_set)) ∧
     (1 ∈ st2.sample_set →
       st2.disagree 1 = (([1, 0] : List Nat).getD 1 0 != 1))) := by
  intro sites st st2
  exact ⟨rfl, by decide, rfl,
    compute_older_sites_two_strike sites 0 st st2 0 1 [1, 0] 1 rfl (by decide) rfl⟩

/-- C7: the loop of `ancestor_builder_compute_older_sites` stops early at a
site l, writing nothing to the ancestor and leaving `last_site` unchanged,
exactly when the repacked working set at l has size at most half of the
ORIGINAL sample-set size at entry (`min_sample_set_size` is computed once,
from the size at entry, i.e. the focal frequency, and never updated: third
conjunct). -/
theorem compute_older_sites_stop_threshold (sites : List site_t)
    (S0 : List Nat) (min_size : Nat) (st : cos_state) (l : Nat)
    (rest : List Nat) (g : List Nat) (c : Nat) (S2 : List Nat)
    (hmin : min_size = S0.length / 2)
    (hg : g = (sites.getD l ⟨0, []⟩).genotypes)
    (hc : c = site_consensus g st.sample_set)
    (hS2 : S2 = cos_removal g st.disagree c st.sample_set) :
    (cos_step sites min_size st l = none ↔ S2.length ≤ S0.length / 2) ∧
    (S2.length ≤ S0.length / 2 → cos_run sites min_size st (l :: rest) = st) ∧
    (∀ (anc : Nat → Int) (focal : Nat) (older : List Nat) (S : List Nat),
      ancestor_builder_compute_older_sites sites focal anc older S
        = ((cos_run sites (S.length / 2)
              ⟨anc, S, fun _ => false, focal⟩ older).ancestor,
           (cos_run sites (S.length / 2)
              ⟨anc, S, fun _ => false, focal⟩ older).last_site)) := by
  subst hmin hg hc hS2
  have hiff : cos_step sites (S0.length / 2) st l = none ↔
      (cos_removal (sites.getD l ⟨0, []⟩).genotypes st.disagree
        (site_consensus (sites.getD l ⟨0, []⟩).genotypes st.sample_set)
        st.sample_set).length ≤ S0.length / 2 := by
    constructor
    · intro hnone
      by_contra hgt
      rw [cos_step, if_neg hgt] at hnone
      exact absurd hnone (by simp)
    · intro hle
      rw [cos_step, if_pos hle]
  refine ⟨hiff, ?_, fun anc focal older S => rfl⟩
  intro hle
  simp only [cos_run, hiff.mpr hle]

/-- C7 witness: a concrete run where the repack at the first older site
shrinks the working set to half the original size, so the loop stops with
the ancestor and last_site untouched. -/
theorem compute_older_sites_stop_threshold_witness :
    let sites : List site_t := [⟨0, [1, 0]⟩]
    let st : cos_state := ⟨fun _ => UNKNOWN, [0, 1], fun _ => true, 5⟩
    let S2 := cos_removal [1, 0] st.disagree 1 st.sample_set
    (1 : Nat) = ([0, 1] : List Nat).length / 2 ∧
    ([1, 0] : List Nat) = (sites.getD 0 ⟨0, []⟩).genotypes ∧
    (1 : Nat) = site_consensus [1, 0] st.sample_set ∧
    S2 = cos_removal [1, 0] st.disagree 1 st.sample_set ∧
    ((cos_step sites 1 st 0 = none ↔ S2.length ≤ ([0, 1] : List Nat).length / 2) ∧
     (S2.length ≤ ([0, 1] : List Nat).length / 2 →
       cos_run sites 1 st [0, 1] = st) ∧
     (∀ (anc : Nat → Int) (focal : Nat) (older : List Nat) (S : List Nat),
       ancestor_builder_compute_older_sites sites focal anc older S
         = ((cos_run sites (S.length / 2)
               ⟨anc, S, fun _ => false, focal⟩ older).ancestor,
            (cos_run sites (S.length / 2)
               ⟨anc, S, fun _ => false, focal⟩ older).last_site))) := by
  intro sites st S2
  exact ⟨by decide, rfl, by decide, rfl,
    compute_older_sites_stop_threshold sites [0, 1] 1 st 0 [1] [1, 0] 1 S2
      (by decide) rfl (by decide) rfl⟩

/-! ### Helper lemmas for the builder state -/

theorem getD_set_ne {α : Type} (L : List α) (i j : Nat) (x d : α)
    (h : i ≠ j) : (L.set i x).getD j d = L.getD j d := by
  simp [List.getD_eq_getElem?_getD, List.getElem?_set_ne h]

theorem getD_set_self_of_lt {α : Type} (L : List α) (i : Nat) (x d : α)
    (h : i < L.length) : (L.set i x).getD i d = x := by
  simp [List.getD_eq_getElem?_getD, List.getElem?_set_self h]

theorem getD_set_self_of_ge {α : Type} (L : List α) (i : Nat) (x d : α)
    (h : L.length ≤ i) : (L.set i x).getD i d = L.getD i d := by
  rw [List.set_eq_of_length_le h]

theorem emit_entry_cons_cons (f s t : Nat) (ts : List Nat) :
    emit_entry f (s :: t :: ts) = ⟨f, [s]⟩ :: emit_entry f (t :: ts) := rfl

theorem emit_entry_focal_flatten (f : Nat) : ∀ (L : List Nat),
    ((emit_entry f L).map ancestor_descriptor_t.focal_sites).flatten = L
  | [] => rfl
  | [_] => rfl
  | s :: t :: ts => by
    rw [emit_entry_cons_cons, List.map_cons, List.flatten_cons,
      emit_entry_focal_flatten f (t :: ts)]
    rfl

theorem emit_entry_length (f : Nat) : ∀ (L : List Nat), L ≠ [] →
    (emit_entry f L).length = L.length
  | [], h => absurd rfl h
  | [_], _ => rfl
  | s :: t :: ts, _ => by
    rw [emit_entry_cons_cons, List.length_cons,
      emit_entry_length f (t :: ts) (by simp), List.length_cons]
    rfl

theorem emit_entry_freq_mem (f : Nat) : ∀ (L : List Nat)
    (d : ancestor_descriptor_t), d ∈ emit_entry f L → d.frequency = f
  | [], d, hd => by
    rw [show emit_entry f [] = [⟨f, []⟩] from rfl, List.mem_singleton] at hd
    rw [hd]
  | [s], d, hd => by
    rw [show emit_entry f [s] = [⟨f, [s]⟩] from rfl, List.mem_singleton] at hd
    rw [hd]
  | s :: t :: ts, d, hd => by
    rw [emit_entry_cons_cons] at hd
    rcases List.mem_cons.mp hd with rfl | hd2
    · rfl
    · exact emit_entry_freq_mem f (t :: ts) d hd2

theorem emit_entry_focal_len (f : Nat) : ∀ (L : List Nat), L ≠ [] →
    ∀ d ∈ emit_entry f L, d.focal_sites.length = 1
  | [], h, _, _ => absurd rfl h
  | [s], _, d, hd => by
    rw [show emit_entry f [s] = [⟨f, [s]⟩] from rfl, List.mem_singleton] at hd
    rw [hd]
    rfl
  | s :: t :: ts, _, d, hd => by
    rw [emit_entry_cons_cons] at hd
    rcases List.mem_cons.mp hd with rfl | hd2
    · rfl
    · exact emit_entry_focal_len f (t :: ts) (by simp) d hd2

theorem mem_finalise_frequencies (n f : Nat) :
    f ∈ finalise_frequencies n ↔ 2 ≤ f ∧ f ≤ n := by
  unfold finalise_frequencies
  rw [List.mem_reverse, List.mem_range'_1]
  omega

theorem finalise_frequencies_nodup (n : Nat) :
    (finalise_frequencies n).Nodup := by
  unfold finalise_frequencies
  rw [List.nodup_reverse]
  exact List.nodup_range' 2 (n - 1)

theorem finalise_frequencies_pairwise_gt (n : Nat) :
    (finalise_frequencies n).Pairwise (· > ·) := by
  unfold finalise_frequencies
  rw [List.pairwise_reverse]
  exact List.pairwise_lt_range' 2 (n - 1)

theorem pattern_insert_perm (e : pattern_map_t) :
    ∀ (L : List pattern_map_t), (pattern_insert e L).Perm (e :: L)
  | [] => List.Perm.refl _
  | x :: xs => by
    have hstep : (x :: pattern_insert e xs).Perm (e :: x :: xs) :=
      ((pattern_insert_perm e xs).cons x).trans (List.Perm.swap e x xs)
    unfold pattern_insert
    cases allele_cmp e.genotypes x.genotypes with
    | lt => exact List.Perm.refl _
    | eq => exact hstep
    | gt => exact hstep

theorem pattern_insert_mem (e x : pattern_map_t) (L : List pattern_map_t) :
    x ∈ pattern_insert e L ↔ x = e ∨ x ∈ L := by
  rw [(pattern_insert_perm e L).mem_iff, List.mem_cons]

/-- Unfolding equation for `ancestor_builder_add_site` at frequency 0 or
1: only the frequency of the site record changes. -/
theorem add_site_low (b : ancestor_builder_t) (l frequency : Nat)
    (genotypes : List Nat) (h : ¬ 1 < frequency) :
    ancestor_builder_add_site b l frequency genotypes
      = { b with sites := (b.sites.set l
            ⟨frequency, (b.sites.getD l ⟨0, none⟩).genotypes⟩) } := by
  simp only [ancestor_builder_add_site, if_neg h]

/-- Unfolding equation for `ancestor_builder_add_site` on a pattern-map
hit. -/
theorem add_site_hit (b : ancestor_builder_t) (l frequency : Nat)
    (genotypes : List Nat) (e : pattern_map_t) (h : 1 < frequency)
    (hfind : (b.frequency_map.getD frequency []).find?
      (fun x => x.genotypes == genotypes) = some e) :
    ancestor_builder_add_site b l frequency genotypes
      = { b with
          sites := b.sites.set l ⟨frequency, some e.gid⟩
          frequency_map := b.frequency_map.set frequency
            ((b.frequency_map.getD frequency []).map (fun x =>
              if x.genotypes == genotypes then
                { x with num_sites := x.num_sites + 1, sites := l :: x.sites }
              else x)) } := by
  simp only [ancestor_builder_add_site, if_pos h, hfind]

/-- Unfolding equation for `ancestor_builder_add_site` on a pattern-map
miss. -/
theorem add_site_miss (b : ancestor_builder_t) (l frequency : Nat)
    (genotypes : List Nat) (h : 1 < frequency)
    (hfind : (b.frequency_map.getD frequency []).find?
      (fun x => x.genotypes == genotypes) = none) :
    ancestor_builder_add_site b l frequency genotypes
      = { b with
          sites := b.sites.set l ⟨frequency, some b.next_gid⟩
          frequency_map := b.frequency_map.set frequency
            (pattern_insert ⟨b.next_gid, genotypes, 1, [l]⟩
              (b.frequency_map.getD frequency []))
          next_gid := b.next_gid + 1 } := by
  simp only [ancestor_builder_add_site, if_pos h, hfind]

theorem add_site_fm_hit (b : ancestor_builder_t) (l frequency : Nat)
    (genotypes : List Nat) (e : pattern_map_t) (h : 1 < frequency)
    (hfind : (b.frequency_map.getD frequency []).find?
      (fun x => x.genotypes == genotypes) = some e) :
    (ancestor_builder_add_site b l frequency genotypes).frequency_map
      = b.frequency_map.set frequency
          ((b.frequency_map.getD frequency []).map (fun x =>
            if x.genotypes == genotypes then
              { x with num_sites := x.num_sites + 1, sites := l :: x.sites }
            else x)) := by
  rw [add_site_hit b l frequency genotypes e h hfind]

theorem add_site_fm_miss (b : ancestor_builder_t) (l frequency : Nat)
    (genotypes : List Nat) (h : 1 < frequency)
    (hfind : (b.frequency_map.getD frequency []).find?
      (fun x => x.genotypes == genotypes) = none) :
    (ancestor_builder_add_site b l frequency genotypes).frequency_map
      = b.frequency_map.set frequency
          (pattern_insert ⟨b.next_gid, genotypes, 1, [l]⟩
            (b.frequency_map.getD frequency [])) := by
  rw [add_site_miss b l frequency genotypes h hfind]

theorem add_site_fm_low (b : ancestor_builder_t) (l frequency : Nat)
    (genotypes : List Nat) (h : ¬ 1 < frequency) :
    (ancestor_builder_add_site b l frequency genotypes).frequency_map
      = b.frequency_map := by
  rw [add_site_low b l frequency genotypes h]

theorem add_site_num_samples (b : ancestor_builder_t) (l frequency : Nat)
    (genotypes : List Nat) :
    (ancestor_builder_add_site b l frequency genotypes).num_samples
      = b.num_samples := by
  by_cases h : 1 < frequency
  · cases hfind : (b.frequency_map.getD frequency []).find?
        (fun x => x.genotypes == genotypes) with
    | some e => rw [add_site_hit b l frequency genotypes e h hfind]
    | none => rw [add_site_miss b l frequency genotypes h hfind]
  · rw [add_site_low b l frequency genotypes h]

theorem add_site_fm_length (b : ancestor_builder_t) (l frequency : Nat)
    (genotypes : List Nat) :
    (ancestor_builder_add_site b l frequency genotypes).frequency_map.length
      = b.frequency_map.length := by
  by_cases h : 1 < frequency
  · cases hfind : (b.frequency_map.getD frequency []).find?
        (fun x => x.genotypes == genotypes) with
    | some e =>
      rw [add_site_fm_hit b l frequency genotypes e h hfind, List.length_set]
    | none =>
      rw [add_site_fm_miss b l frequency genotypes h hfind, List.length_set]
  · rw [add_site_fm_low b l frequency genotypes h]

theorem add_site_sites_length (b : ancestor_builder_t) (l frequency : Nat)
    (genotypes : List Nat) :
    (ancestor_builder_add_site b l frequency genotypes).sites.length
      = b.sites.length := by
  by_cases h : 1 < frequency
  · cases hfind : (b.frequency_map.getD frequency []).find?
        (fun x => x.genotypes == genotypes) with
    | some e =>
      rw [add_site_hit b l frequency genotypes e h hfind]
      exact List.length_set b.sites l _
    | none =>
      rw [add_site_miss b l frequency genotypes h hfind]
      exact List.length_set b.sites l _
  · rw [add_site_low b l frequency genotypes h]
    exact List.length_set b.sites l _

/-- Case analysis for membership of a bucket after
`ancestor_builder_add_site`: the entry was already there, or it is the
found entry with the site front-inserted, or it is the fresh entry. -/
theorem mem_bucket_add_site (b : ancestor_builder_t) (l frequency : Nat)
    (genotypes : List Nat) (f : Nat) (e : pattern_map_t)
    (he : e ∈ (ancestor_builder_add_site b l frequency
      genotypes).frequency_map.getD f []) :
    e ∈ b.frequency_map.getD f [] ∨
    (1 < frequency ∧ f = frequency ∧
      ∃ e0 ∈ b.frequency_map.getD f [], e0.genotypes = genotypes ∧
        e = { e0 with num_sites := e0.num_sites + 1,
                      sites := l :: e0.sites }) ∨
    (1 < frequency ∧ f = frequency ∧
      e = ⟨b.next_gid, genotypes, 1, [l]⟩) := by
  by_cases h : 1 < frequency
  · cases hfind : (b.frequency_map.getD frequency []).find?
        (fun x => x.genotypes == genotypes) with
    | some e1 =>
      rw [add_site_fm_hit b l frequency genotypes e1 h hfind] at he
      by_cases hf : f = frequency
      · subst hf
        by_cases hlen : f < b.frequency_map.length
        · rw [getD_set_self_of_lt _ _ _ _ hlen] at he
          obtain ⟨x, hx, hxe⟩ := List.mem_map.mp he
          by_cases hmatch : x.genotypes == genotypes
          · right; left
            exact ⟨h, rfl, x, hx, by simpa using hmatch,
              by rw [← hxe, if_pos hmatch]⟩
          · left
            rw [← hxe, if_neg hmatch]
            exact hx
        · rw [getD_set_self_of_ge _ _ _ _ (le_of_not_lt hlen)] at he
          exact Or.inl he
      · rw [getD_set_ne _ _ _ _ _ (fun hh => hf hh.symm)] at he
        exact Or.inl he
    | none =>
      rw [add_site_fm_miss b l frequency genotypes h hfind] at he
      by_cases hf : f = frequency
      · subst hf
        by_cases hlen : f < b.frequency_map.length
        · rw [getD_set_self_of_lt _ _ _ _ hlen] at he
          rcases (pattern_insert_mem _ _ _).mp he with rfl | hmem
          · right; right; exact ⟨h, rfl, rfl⟩
          · exact Or.inl hmem
        · rw [getD_set_self_of_ge _ _ _ _ (le_of_not_lt hlen)] at he
          exact Or.inl he
      · rw [getD_set_ne _ _ _ _ _ (fun hh => hf hh.symm)] at he
        exact Or.inl he
  · rw [add_site_fm_low b l frequency genotypes h] at he
    exact Or.inl he

/-- Invariants preserved by every `ancestor_builder_add_site` call are
preserved by any sequence of calls. -/
theorem foldl_add_site_invariant (P : ancestor_builder_t → Prop)
    (hstep : ∀ b l frequency genotypes, P b →
      P (ancestor_builder_add_site b l frequency genotypes)) :
    ∀ (adds : List site_add) (b : ancestor_builder_t), P b →
      P (adds.foldl
        (fun b a => ancestor_builder_add_site b a.id a.frequency a.genotypes)
        b)
  | [], _, hb => hb
  | a :: rest, b, hb =>
    foldl_add_site_invariant P hstep rest _
      (hstep b a.id a.frequency a.genotypes hb)

theorem alloc_bucket_empty (ns nsites f : Nat) :
    (ancestor_builder_alloc ns nsites).frequency_map.getD f [] = [] := by
  show (List.replicate (ns + 1) ([] : List pattern_map_t)).getD f [] = []
  simp [List.getD_eq_getElem?_getD]

theorem add_site_bucket_pairwise (b : ancestor_builder_t)
    (l frequency : Nat) (genotypes : List Nat)
    (hdist : ∀ f, (b.frequency_map.getD f []).Pairwise
      (fun u v => u.genotypes ≠ v.genotypes)) :
    ∀ f, ((ancestor_builder_add_site b l frequency
        genotypes).frequency_map.getD f []).Pairwise
      (fun u v => u.genotypes ≠ v.genotypes) := by
  intro f
  by_cases h : 1 < frequency
  · cases hfind : (b.frequency_map.getD frequency []).find?
        (fun x => x.genotypes == genotypes) with
    | some e1 =>
      rw [add_site_fm_hit b l frequency genotypes e1 h hfind]
      by_cases hf : f = frequency
      · subst hf
        by_cases hlen : f < b.frequency_map.length
        · rw [getD_set_self_of_lt _ _ _ _ hlen]
          refine (hdist f).map _ (fun u v huv => ?_)
          have hpres : ∀ w : pattern_map_t,
              ((if w.genotypes == genotypes then
                { w with num_sites := w.num_sites + 1, sites := l :: w.sites }
               else w) : pattern_map_t).genotypes = w.genotypes := by
            intro w
            by_cases hw : w.genotypes == genotypes
            · rw [if_pos hw]
            · rw [if_neg hw]
          rw [hpres, hpres]
          exact huv
        · rw [getD_set_self_of_ge _ _ _ _ (le_of_not_lt hlen)]
          exact hdist f
      · rw [getD_set_ne _ _ _ _ _ (fun hh => hf hh.symm)]
        exact hdist f
    | none =>
      rw [add_site_fm_miss b l frequency genotypes h hfind]
      by_cases hf : f = frequency
      · subst hf
        by_cases hlen : f < b.frequency_map.length
        · rw [getD_set_self_of_lt _ _ _ _ hlen]
          have hnotin := List.find?_eq_none.mp hfind
          refine ((pattern_insert_perm _ _).pairwise_iff
            (fun h2 => h2.symm)).mpr ?_
          rw [List.pairwise_cons]
          refine ⟨fun x hx hcontra => ?_, hdist f⟩
          exact hnotin x hx (beq_iff_eq.mpr hcontra.symm)
        · rw [getD_set_self_of_ge _ _ _ _ (le_of_not_lt hlen)]
          exact hdist f
      · rw [getD_set_ne _ _ _ _ _ (fun hh => hf hh.symm)]
        exact hdist f
  · rw [add_site_fm_low b l frequency genotypes h]
    exact hdist f

theorem build_bucket_pairwise (ns nsites : Nat) (adds : List site_add) :
    ∀ f, ((build_builder ns nsites adds).frequency_map.getD f []).Pairwise
      (fun u v => u.genotypes ≠ v.genotypes) := by
  refine foldl_add_site_invariant
    (fun b => ∀ f, (b.frequency_map.getD f []).Pairwise
      (fun u v => u.genotypes ≠ v.genotypes))
    (fun b l fr g hb => add_site_bucket_pairwise b l fr g hb) adds
    (ancestor_builder_alloc ns nsites) (fun f => ?_)
  rw [alloc_bucket_empty]
  exact List.Pairwise.nil

theorem add_site_entry_wf (b : ancestor_builder_t) (l frequency : Nat)
    (genotypes : List Nat)
    (hwf : ∀ f, ∀ e ∈ b.frequency_map.getD f [],
      e.sites ≠ [] ∧ e.num_sites = e.sites.length) :
    ∀ f, ∀ e ∈ (ancestor_builder_add_site b l frequency
        genotypes).frequency_map.getD f [],
      e.sites ≠ [] ∧ e.num_sites = e.sites.length := by
  intro f e he
  rcases mem_bucket_add_site b l frequency genotypes f e he with
    hold | ⟨-, -, e0, he0, -, rfl⟩ | ⟨-, -, rfl⟩
  · exact hwf f e hold
  · exact ⟨by simp, by simp [(hwf f e0 he0).2]⟩
  · exact ⟨by simp, rfl⟩

theorem build_entry_wf (ns nsites : Nat) (adds : List site_add) :
    ∀ f, ∀ e ∈ (build_builder ns nsites adds).frequency_map.getD f [],
      e.sites ≠ [] ∧ e.num_sites = e.sites.length := by
  refine foldl_add_site_invariant
    (fun b => ∀ f, ∀ e ∈ b.frequency_map.getD f [],
      e.sites ≠ [] ∧ e.num_sites = e.sites.length)
    (fun b l fr g hb => add_site_entry_wf b l fr g hb) adds
    (ancestor_builder_alloc ns nsites) (fun f e he => ?_)
  rw [alloc_bucket_empty] at he
  cases he

/-! ### Claim theorems: finalise (C3, C8, C9) -/

/-- C3: after finalise, every emitted descriptor has exactly one focal
site; a pattern-map entry shared by k sites yields exactly k descriptors,
all with the bucket frequency, one per site of the entry. -/
theorem finalise_single_focal (ns nsites : Nat) (adds : List site_add)
    (b : ancestor_builder_t) (hb : b = build_builder ns nsites adds) :
    (∀ d ∈ ancestor_builder_finalise b, d.focal_sites.length = 1) ∧
    (∀ f, ∀ e ∈ b.frequency_map.getD f [],
      (emit_entry f (materialise_focal_sites e)).length = e.num_sites ∧
      (∀ d ∈ emit_entry f (materialise_focal_sites e),
        d.frequency = f ∧ d.focal_sites.length = 1) ∧
      ((emit_entry f (materialise_focal_sites e)).map
        ancestor_descriptor_t.focal_sites).flatten
          = materialise_focal_sites e) := by
  subst hb
  have hwf := build_entry_wf ns nsites adds
  have hmat : ∀ f, ∀ e ∈ (build_builder ns nsites
      adds).frequency_map.getD f [], materialise_focal_sites e ≠ [] := by
    intro f e he
    unfold materialise_focal_sites
    simp [(hwf f e he).1]
  constructor
  · intro d hd
    unfold ancestor_builder_finalise at hd
    obtain ⟨f, -, hd2⟩ := List.mem_flatMap.mp hd
    obtain ⟨e, he, hd3⟩ := List.mem_flatMap.mp hd2
    exact emit_entry_focal_len f _ (hmat f e he) d hd3
  · intro f e he
    refine ⟨?_, fun d hd => ⟨emit_entry_freq_mem f _ d hd,
      emit_entry_focal_len f _ (hmat f e he) d hd⟩,
      emit_entry_focal_flatten f _⟩
    rw [emit_entry_length f _ (hmat f e he)]
    unfold materialise_focal_sites
    rw [List.length_reverse]
    exact ((hwf f e he).2).symm

/-- C3 witness: the deduplication scenario of the spec (three sites at
frequency 2, two sharing a pattern). -/
theorem finalise_single_focal_witness :
    let adds : List site_add := [⟨0, 2, [1, 1, 0, 0]⟩, ⟨1, 2, [1, 1, 0, 0]⟩,
      ⟨2, 2, [0, 1, 1, 0]⟩]
    let b := build_builder 4 3 adds
    b = build_builder 4 3 adds ∧
    ((∀ d ∈ ancestor_builder_finalise b, d.focal_sites.length = 1) ∧
     (∀ f, ∀ e ∈ b.frequency_map.getD f [],
       (emit_entry f (materialise_focal_sites e)).length = e.num_sites ∧
       (∀ d ∈ emit_entry f (materialise_focal_sites e),
         d.frequency = f ∧ d.focal_sites.length = 1) ∧
       ((emit_entry f (materialise_focal_sites e)).map
         ancestor_descriptor_t.focal_sites).flatten
           = materialise_focal_sites e)) := by
  intro adds b
  exact ⟨rfl, finalise_single_focal 4 3 adds b rfl⟩

/-- C8 counterexample: two sites share a pattern at frequency 2; finalise
emits two descriptors with EQUAL frequency, so iteration is not strictly
decreasing in frequency. -/
theorem finalise_strict_decreasing_counterexample :
    let D := ancestor_builder_finalise
      (build_builder 2 2 [⟨0, 2, [1, 1]⟩, ⟨1, 2, [1, 1]⟩])
    D.length = 2 ∧ (0 : Nat) < 1 ∧
    ¬ ((D.getD 0 ⟨0, []⟩).frequency > (D.getD 1 ⟨0, []⟩).frequency) := by
  intro D
  exact ⟨by decide, by decide, by decide⟩

/-- C8 amended: descriptor iteration after finalise is in non-increasing
frequency order (strictly decreasing across frequency classes, constant
within one). -/
theorem finalise_freq_nonincreasing (ns nsites : Nat)
    (adds : List site_add) :
    (ancestor_builder_finalise (build_builder ns nsites adds)).Pairwise
      (fun d1 d2 => d2.frequency ≤ d1.frequency) := by
  unfold ancestor_builder_finalise
  rw [List.pairwise_flatMap]
  constructor
  · intro f _
    rw [List.pairwise_flatMap]
    constructor
    · intro e _
      refine List.pairwise_of_forall_mem_list (fun d1 h1 d2 h2 => ?_)
      rw [emit_entry_freq_mem f _ d1 h1, emit_entry_freq_mem f _ d2 h2]
    · refine List.pairwise_of_forall_mem_list
        (fun e1 _ e2 _ d1 h1 d2 h2 => ?_)
      rw [emit_entry_freq_mem f _ d1 h1, emit_entry_freq_mem f _ d2 h2]
  · refine (finalise_frequencies_pairwise_gt _).imp_of_mem ?_
    intro f1 f2 hm1 hm2 hgt d1 h1 d2 h2
    obtain ⟨e1, he1m, hd1⟩ := List.mem_flatMap.mp h1
    obtain ⟨e2, he2m, hd2⟩ := List.mem_flatMap.mp h2
    rw [emit_entry_freq_mem f1 _ d1 hd1, emit_entry_freq_mem f2 _ d2 hd2]
    exact le_of_lt hgt

/-- C9 counterexample: adding site 1 before site 0 with the same pattern
leaves the materialised focal-sites array [1, 0], which is not in
ascending SiteId order, and the emitted descriptors follow that order. -/
theorem materialise_ascending_counterexample :
    let b := build_builder 2 2 [⟨1, 2, [1, 1]⟩, ⟨0, 2, [1, 1]⟩]
    (b.frequency_map.getD 2 []).map materialise_focal_sites = [[1, 0]] ∧
    ancestor_builder_finalise b = [⟨2, [1]⟩, ⟨2, [0]⟩] ∧
    ¬ ([1, 0] : List Nat).Pairwise (· < ·) := by
  intro b
  refine ⟨by decide, by decide, fun h => ?_⟩
  exact absurd ((List.pairwise_cons.mp h).1 0 (by simp)) (by omega)

/-- C9 amended: the materialised focal-sites array is the reverse of the
front-inserted list, i.e. the sites in the order they were added; it is
ascending whenever the add_site calls arrive in ascending SiteId order
(as the natural one-pass caller does), not unconditionally. -/
theorem materialise_sorted_of_increasing_adds (ns nsites : Nat)
    (adds : List site_add)
    (hinc : (adds.map site_add.id).Pairwise (· < ·)) :
    ∀ f, ∀ e ∈ (build_builder ns nsites adds).frequency_map.getD f [],
      (materialise_focal_sites e).Pairwise (· < ·) := by
  suffices h : ∀ (adds : List site_add) (b : ancestor_builder_t),
      (adds.map site_add.id).Pairwise (· < ·) →
      (∀ f, ∀ e ∈ b.frequency_map.getD f [],
        e.sites.Pairwise (· > ·) ∧ ∀ y ∈ e.sites, ∀ a ∈ adds, y < a.id) →
      ∀ f, ∀ e ∈ (adds.foldl
        (fun b a => ancestor_builder_add_site b a.id a.frequency a.genotypes)
        b).frequency_map.getD f [],
        e.sites.Pairwise (· > ·) by
    intro f e he
    unfold materialise_focal_sites
    rw [List.pairwise_reverse]
    exact h adds (ancestor_builder_alloc ns nsites) hinc
      (fun f2 e2 he2 => by rw [alloc_bucket_empty] at he2; cases he2) f e he
  intro adds2
  induction adds2 with
  | nil => exact fun b _ hinv => fun f e he => (hinv f e he).1
  | cons a rest ih =>
    intro b hpw hinv
    rw [List.map_cons, List.pairwise_cons] at hpw
    refine ih _ hpw.2 ?_
    intro f e he
    rcases mem_bucket_add_site b a.id a.frequency a.genotypes f e he with
      hold | ⟨-, -, e0, he0, -, rfl⟩ | ⟨-, -, rfl⟩
    · exact ⟨(hinv f e hold).1,
        fun y hy a2 ha2 => (hinv f e hold).2 y hy a2 (by simp [ha2])⟩
    · constructor
      · rw [List.pairwise_cons]
        exact ⟨fun y hy => (hinv f e0 he0).2 y hy a (by simp),
          (hinv f e0 he0).1⟩
      · intro y hy a2 ha2
        rcases List.mem_cons.mp hy with rfl | hy2
        · exact hpw.1 a2.id (List.mem_map_of_mem site_add.id ha2)
        · exact (hinv f e0 he0).2 y hy2 a2 (by simp [ha2])
    · constructor
      · exact List.pairwise_singleton _ _
      · intro y hy a2 ha2
        rw [List.mem_singleton] at hy
        subst hy
        exact hpw.1 a2.id (List.mem_map_of_mem site_add.id ha2)

/-- C9 amended witness: two same-pattern sites added in ascending order
give an ascending materialised array. -/
theorem materialise_sorted_of_increasing_adds_witness :
    let adds : List site_add := [⟨0, 2, [1, 1]⟩, ⟨1, 2, [1, 1]⟩]
    (adds.map site_add.id).Pairwise (· < ·) ∧
    (∀ f, ∀ e ∈ (build_builder 2 2 adds).frequency_map.getD f [],
      (materialise_focal_sites e).Pairwise (· < ·)) := by
  intro adds
  exact ⟨by decide, materialise_sorted_of_increasing_adds 2 2 adds
    (by decide)⟩

/-! ### Counting helpers for C2 -/

theorem count_flatten_eq_sum (x : Nat) : ∀ (L : List (List Nat)),
    L.flatten.count x = (L.map (fun l => l.count x)).sum
  | [] => rfl
  | l :: ls => by
    rw [List.flatten_cons, List.count_append, List.map_cons, List.sum_cons,
      count_flatten_eq_sum x ls]

theorem count_focal_bucket (x f : Nat) : ∀ (bucket : List pattern_map_t),
    (((bucket.flatMap (fun e => emit_entry f (materialise_focal_sites e))).map
      ancestor_descriptor_t.focal_sites).flatten).count x
    = (bucket.map (fun e => e.sites.count x)).sum
  | [] => rfl
  | e :: rest => by
    rw [List.flatMap_cons, List.map_append, List.flatten_append,
      List.count_append, count_focal_bucket x f rest,
      emit_entry_focal_flatten f (materialise_focal_sites e)]
    unfold materialise_focal_sites
    rw [List.count_reverse, List.map_cons, List.sum_cons]

theorem count_focal_freqs (b : ancestor_builder_t) (x : Nat) :
    ∀ (fs : List Nat),
    (((fs.flatMap (fun f => (b.frequency_map.getD f []).flatMap
        (fun e => emit_entry f (materialise_focal_sites e)))).map
      ancestor_descriptor_t.focal_sites).flatten).count x
    = (fs.map (fun f =>
        ((b.frequency_map.getD f []).map
          (fun e => e.sites.count x)).sum)).sum
  | [] => rfl
  | f :: rest => by
    rw [List.flatMap_cons, List.map_append, List.flatten_append,
      List.count_append, count_focal_freqs b x rest,
      count_focal_bucket x f _, List.map_cons, List.sum_cons]

theorem finalise_count (b : ancestor_builder_t) (x : Nat) :
    (((ancestor_builder_finalise b).map
      ancestor_descriptor_t.focal_sites).flatten).count x
    = ((finalise_frequencies b.num_samples).map (fun f =>
        ((b.frequency_map.getD f []).map
          (fun e => e.sites.count x)).sum)).sum := by
  unfold ancestor_builder_finalise
  exact count_focal_freqs b x _

theorem sum_count_map_update (l x : Nat) (genotypes : List Nat) :
    ∀ (bucket : List pattern_map_t),
      bucket.Pairwise (fun u v => u.genotypes ≠ v.genotypes) →
      (∃ e ∈ bucket, e.genotypes = genotypes) →
      ((bucket.map (fun w =>
        if w.genotypes == genotypes then
          { w with num_sites := w.num_sites + 1, sites := l :: w.sites }
        else w)).map (fun e => e.sites.count x)).sum
      = (bucket.map (fun e => e.sites.count x)).sum
        + (if l = x then 1 else 0) := by
  intro bucket
  induction bucket with
  | nil => rintro - ⟨e, he, -⟩; cases he
  | cons w t ih =>
    intro hdist hex
    rw [List.pairwise_cons] at hdist
    by_cases hmatch : w.genotypes == genotypes
    · have hall : ∀ w2 ∈ t, (if w2.genotypes == genotypes then
          ({ w2 with num_sites := w2.num_sites + 1, sites := l :: w2.sites } : pattern_map_t)
        else w2) = w2 := by
        intro w2 hw2
        refine if_neg (fun hc => ?_)
        exact hdist.1 w2 hw2 (by rw [beq_iff_eq.mp hmatch,
          ← beq_iff_eq.mp hc])
      have hid : (t.map (fun w2 =>
          if w2.genotypes == genotypes then
            { w2 with num_sites := w2.num_sites + 1, sites := l :: w2.sites }
          else w2)) = t := by
        rw [List.map_congr_left hall]
        simp
      rw [List.map_cons, if_pos hmatch, hid, List.map_cons, List.sum_cons,
        List.map_cons, List.sum_cons]
      have hcc : ((l :: w.sites) : List Nat).count x
          = w.sites.count x + (if l = x then 1 else 0) := by
        by_cases hlx : l = x <;> simp [List.count_cons, hlx, eq_comm]
      have hproj : ({ w with num_sites := w.num_sites + 1, sites := l :: w.sites } : pattern_map_t).sites = l :: w.sites := rfl
      rw [hproj, hcc]
      omega
    · obtain ⟨e, he, hge⟩ := hex
      rcases List.mem_cons.mp he with rfl | het
      · exact absurd (beq_iff_eq.mpr hge) hmatch
      · rw [List.map_cons, if_neg hmatch, List.map_cons, List.sum_cons,
          List.map_cons, List.sum_cons, ih hdist.2 ⟨e, het, hge⟩]
        omega

theorem sum_count_insert (l x : Nat) (genotypes : List Nat) (fresh : Nat)
    (bucket : List pattern_map_t) :
    ((pattern_insert ⟨fresh, genotypes, 1, [l]⟩ bucket).map
      (fun e => e.sites.count x)).sum
    = (bucket.map (fun e => e.sites.count x)).sum
      + (if l = x then 1 else 0) := by
  have hperm := (pattern_insert_perm
    ⟨fresh, genotypes, 1, [l]⟩ bucket).map (fun e => e.sites.count x)
  rw [hperm.sum_eq, List.map_cons, List.sum_cons]
  have hcnt : (([l] : List Nat)).count x = (if l = x then 1 else 0) := by
    by_cases hlx : l = x <;> simp [hlx, eq_comm]
  have hproj : (⟨fresh, genotypes, 1, [l]⟩ : pattern_map_t).sites = [l] := rfl
  rw [hproj, hcnt]
  omega

theorem sum_map_update_single (F : List Nat) (f0 : Nat) (g g2 : Nat → Nat)
    (k : Nat) (hnd : F.Nodup) (hf : f0 ∈ F)
    (hne : ∀ f ∈ F, f ≠ f0 → g2 f = g f) (heq : g2 f0 = g f0 + k) :
    (F.map g2).sum = (F.map g).sum + k := by
  induction F with
  | nil => cases hf
  | cons h t ih =>
    rw [List.nodup_cons] at hnd
    rw [List.map_cons, List.map_cons, List.sum_cons, List.sum_cons]
    rcases List.mem_cons.mp hf with rfl | hft
    · have ht : t.map g2 = t.map g := List.map_congr_left (fun f hf2 =>
        hne f (List.mem_cons_of_mem _ hf2)
          (fun hh => hnd.1 (by rw [← hh]; exact hf2)))
      rw [heq, ht]
      omega
    · have hh : h ≠ f0 := fun hh => hnd.1 (by rw [hh]; exact hft)
      rw [hne h (List.mem_cons_self _ _) hh,
        ih hnd.2 hft (fun f hf2 hne2 => hne f (List.mem_cons_of_mem _ hf2)
          hne2)]
      omega

/-- One `ancestor_builder_add_site` call changes the total number of
occurrences of a site id across all bucket site lists by exactly one when
the call registers that id at frequency at least 2, and by nothing
otherwise. -/
theorem add_site_focal_sum (ns : Nat) (b : ancestor_builder_t)
    (a : site_add) (x : Nat)
    (hlen : b.frequency_map.length = ns + 1)
    (hdist : ∀ f, (b.frequency_map.getD f []).Pairwise
      (fun u v => u.genotypes ≠ v.genotypes))
    (hfreq : a.frequency ≤ ns) :
    ((finalise_frequencies ns).map (fun f =>
      (((ancestor_builder_add_site b a.id a.frequency
          a.genotypes).frequency_map.getD f []).map
        (fun e => e.sites.count x)).sum)).sum
    = ((finalise_frequencies ns).map (fun f =>
        ((b.frequency_map.getD f []).map
          (fun e => e.sites.count x)).sum)).sum
      + (if a.id = x ∧ 2 ≤ a.frequency then 1 else 0) := by
  by_cases h : 1 < a.frequency
  · have hmem : a.frequency ∈ finalise_frequencies ns :=
      (mem_finalise_frequencies ns a.frequency).mpr ⟨h, hfreq⟩
    have hlt : a.frequency < b.frequency_map.length := by omega
    have hite : (if a.id = x then 1 else 0)
        = (if a.id = x ∧ 2 ≤ a.frequency then 1 else 0) := by
      by_cases hx : a.id = x
      · rw [if_pos hx, if_pos ⟨hx, by omega⟩]
      · rw [if_neg hx, if_neg (fun hc => hx hc.1)]
    cases hfind : (b.frequency_map.getD a.frequency []).find?
        (fun w => w.genotypes == a.genotypes) with
    | some e1 =>
      have hbn : ∀ f, f ≠ a.frequency →
          (ancestor_builder_add_site b a.id a.frequency
            a.genotypes).frequency_map.getD f []
          = b.frequency_map.getD f [] := by
        intro f hne2
        rw [add_site_fm_hit b a.id a.frequency a.genotypes e1 h hfind,
          getD_set_ne _ _ _ _ _ (fun hh => hne2 hh.symm)]
      have heqq : (((ancestor_builder_add_site b a.id a.frequency
            a.genotypes).frequency_map.getD a.frequency []).map
          (fun e => e.sites.count x)).sum
          = ((b.frequency_map.getD a.frequency []).map
              (fun e => e.sites.count x)).sum
            + (if a.id = x then 1 else 0) := by
        rw [add_site_fm_hit b a.id a.frequency a.genotypes e1 h hfind,
          getD_set_self_of_lt _ _ _ _ hlt]
        exact sum_count_map_update a.id x a.genotypes _
          (hdist a.frequency)
          ⟨e1, List.mem_of_find?_eq_some hfind, by
            have hp := List.find?_some hfind
            simpa using hp⟩
      have hsum := sum_map_update_single (finalise_frequencies ns)
        a.frequency
        (fun f => ((b.frequency_map.getD f []).map
          (fun e => e.sites.count x)).sum)
        (fun f => (((ancestor_builder_add_site b a.id a.frequency
            a.genotypes).frequency_map.getD f []).map
          (fun e => e.sites.count x)).sum)
        (if a.id = x then 1 else 0)
        (finalise_frequencies_nodup ns) hmem
        (fun f _ hne2 => by simp only [hbn f hne2])
        heqq
      rw [hsum, hite]
    | none =>
      have hbn : ∀ f, f ≠ a.frequency →
          (ancestor_builder_add_site b a.id a.frequency
            a.genotypes).frequency_map.getD f []
          = b.frequency_map.getD f [] := by
        intro f hne2
        rw [add_site_fm_miss b a.id a.frequency a.genotypes h hfind,
          getD_set_ne _ _ _ _ _ (fun hh => hne2 hh.symm)]
      have heqq : (((ancestor_builder_add_site b a.id a.frequency
            a.genotypes).frequency_map.getD a.frequency []).map
          (fun e => e.sites.count x)).sum
          = ((b.frequency_map.getD a.frequency []).map
              (fun e => e.sites.count x)).sum
            + (if a.id = x then 1 else 0) := by
        rw [add_site_fm_miss b a.id a.frequency a.genotypes h hfind,
          getD_set_self_of_lt _ _ _ _ hlt]
        exact sum_count_insert a.id x a.genotypes b.next_gid _
      have hsum := sum_map_update_single (finalise_frequencies ns)
        a.frequency
        (fun f => ((b.frequency_map.getD f []).map
          (fun e => e.sites.count x)).sum)
        (fun f => (((ancestor_builder_add_site b a.id a.frequency
            a.genotypes).frequency_map.getD f []).map
          (fun e => e.sites.count x)).sum)
        (if a.id = x then 1 else 0)
        (finalise_frequencies_nodup ns) hmem
        (fun f _ hne2 => by simp only [hbn f hne2])
        heqq
      rw [hsum, hite]
  · rw [add_site_fm_low _ _ _ _ h,
      if_neg (fun hc => h (by omega))]
    omega

theorem build_num_samples (ns nsites : Nat) (adds : List site_add) :
    (build_builder ns nsites adds).num_samples = ns :=
  foldl_add_site_invariant (fun b => b.num_samples = ns)
    (fun b l fr g hb => by simp only [add_site_num_samples]; exact hb)
    adds (ancestor_builder_alloc ns nsites) rfl

theorem build_fm_length (ns nsites : Nat) (adds : List site_add) :
    (build_builder ns nsites adds).frequency_map.length = ns + 1 :=
  foldl_add_site_invariant (fun b => b.frequency_map.length = ns + 1)
    (fun b l fr g hb => by simp only [add_site_fm_length]; exact hb)
    adds (ancestor_builder_alloc ns nsites) (List.length_replicate _ _)

theorem foldl_focal_sum (ns x : Nat) : ∀ (adds : List site_add)
    (b : ancestor_builder_t),
    b.frequency_map.length = ns + 1 →
    (∀ f, (b.frequency_map.getD f []).Pairwise
      (fun u v => u.genotypes ≠ v.genotypes)) →
    (∀ a ∈ adds, a.frequency ≤ ns) →
    ((finalise_frequencies ns).map (fun f =>
      (((adds.foldl (fun b a => ancestor_builder_add_site b a.id
          a.frequency a.genotypes) b).frequency_map.getD f []).map
        (fun e => e.sites.count x)).sum)).sum
    = ((finalise_frequencies ns).map (fun f =>
        ((b.frequency_map.getD f []).map
          (fun e => e.sites.count x)).sum)).sum
      + adds.countP (fun a => a.id == x && decide (2 ≤ a.frequency)) := by
  intro adds
  induction adds with
  | nil => intro b _ _ _; simp
  | cons a rest ih =>
    intro b hlen hdist hfreq
    rw [List.foldl_cons,
      ih (ancestor_builder_add_site b a.id a.frequency a.genotypes)
        (by rw [add_site_fm_length]; exact hlen)
        (add_site_bucket_pairwise b a.id a.frequency a.genotypes hdist)
        (fun a2 ha2 => hfreq a2 (List.mem_cons_of_mem _ ha2)),
      add_site_focal_sum ns b a x hlen hdist
        (hfreq a (List.mem_cons_self _ _)),
      List.countP_cons]
    have hite : (if a.id = x ∧ 2 ≤ a.frequency then 1 else 0)
        = (if (a.id == x && decide (2 ≤ a.frequency)) = true
           then 1 else 0) := by
      by_cases h1 : a.id = x
      · by_cases h2 : 2 ≤ a.frequency <;> simp [h1, h2]
      · by_cases h2 : 2 ≤ a.frequency <;> simp [h1, h2]
    omega

theorem countP_id_match (x : site_add) : ∀ (adds : List site_add),
    (adds.map site_add.id).Nodup → x ∈ adds →
    adds.countP (fun a2 => a2.id == x.id && decide (2 ≤ a2.frequency))
      = if 2 ≤ x.frequency then 1 else 0
  | [], _, hx => absurd hx (List.not_mem_nil x)
  | a :: rest, hnd, hx => by
    rw [List.map_cons, List.nodup_cons] at hnd
    rw [List.countP_cons]
    rcases List.mem_cons.mp hx with rfl | hxr
    · have hrest : rest.countP
          (fun a2 => a2.id == x.id && decide (2 ≤ a2.frequency)) = 0 := by
        rw [List.countP_eq_zero]
        intro a2 ha2 hpa
        have ha2id : a2.id = x.id := by
          simp only [Bool.and_eq_true, beq_iff_eq, decide_eq_true_eq] at hpa
          exact hpa.1
        exact hnd.1 (by rw [← ha2id]
                        exact List.mem_map_of_mem site_add.id ha2)
      rw [hrest]
      by_cases h2 : 2 ≤ x.frequency <;> simp [h2]
    · have hane : ¬ (a.id == x.id && decide (2 ≤ a.frequency)) = true := by
        intro hpa
        have haid : a.id = x.id := by
          simp only [Bool.and_eq_true, beq_iff_eq, decide_eq_true_eq] at hpa
          exact hpa.1
        exact hnd.1 (by rw [haid]
                        exact List.mem_map_of_mem site_add.id hxr)
      rw [if_neg hane, countP_id_match x rest hnd.2 hxr, Nat.add_zero]

/-! ### Claim theorem: insert-then-iterate round trip (C2) -/

/-- C2: for a builder in which add_site has been called exactly once per
site, after finalise every SiteId of frequency at least 2 appears exactly
once across the focal_sites lists of all emitted descriptors, and sites of
frequency at most 1 appear in none. -/
theorem finalise_each_site_once (ns nsites : Nat) (adds : List site_add)
    (a : site_add) (ha : a ∈ adds)
    (hns : 2 ≤ ns)
    (hdistinct : (adds.map site_add.id).Nodup)
    (hfreq : ∀ a2 ∈ adds, a2.frequency ≤ ns) :
    (((ancestor_builder_finalise (build_builder ns nsites adds)).map
      ancestor_descriptor_t.focal_sites).flatten).count a.id
    = if 2 ≤ a.frequency then 1 else 0 := by
  rw [finalise_count, build_num_samples]
  unfold build_builder
  rw [foldl_focal_sum ns a.id adds (ancestor_builder_alloc ns nsites)
    (List.length_replicate _ _)
    (fun f => by rw [alloc_bucket_empty]; exact List.Pairwise.nil)
    hfreq]
  have hbase : ((finalise_frequencies ns).map (fun f =>
      (((ancestor_builder_alloc ns nsites).frequency_map.getD f []).map
        (fun e => e.sites.count a.id)).sum)).sum = 0 := by
    apply List.sum_eq_zero
    intro y hy
    obtain ⟨f, hf, rfl⟩ := List.mem_map.mp hy
    rw [alloc_bucket_empty]
    rfl
  rw [hbase, Nat.zero_add]
  exact countP_id_match a adds hdistinct ha

/-- C2 witness: the deduplication scenario plus one singleton site; the
focal site of the first add appears exactly once, the singleton site not
at all. -/
theorem finalise_each_site_once_witness :
    let adds : List site_add := [⟨0, 2, [1, 1, 0, 0]⟩, ⟨1, 2, [1, 1, 0, 0]⟩,
      ⟨2, 1, [0, 0, 1, 0]⟩]
    (⟨0, 2, [1, 1, 0, 0]⟩ : site_add) ∈ adds ∧
    2 ≤ 4 ∧
    (adds.map site_add.id).Nodup ∧
    (∀ a2 ∈ adds, a2.frequency ≤ 4) ∧
    (((ancestor_builder_finalise (build_builder 4 3 adds)).map
      ancestor_descriptor_t.focal_sites).flatten).count
        (site_add.id ⟨0, 2, [1, 1, 0, 0]⟩)
      = if 2 ≤ site_add.frequency (⟨0, 2, [1, 1, 0, 0]⟩ : site_add)
        then 1 else 0 := by
  intro adds
  exact ⟨by decide, by decide, by decide, by decide,
    finalise_each_site_once 4 3 adds ⟨0, 2, [1, 1, 0, 0]⟩ (by decide)
      (by decide) (by decide) (by decide)⟩

/-! ### Canonical-buffer helpers for C10 -/

theorem add_site_sites_hit (b : ancestor_builder_t) (l frequency : Nat)
    (genotypes : List Nat) (e : pattern_map_t) (h : 1 < frequency)
    (hfind : (b.frequency_map.getD frequency []).find?
      (fun x => x.genotypes == genotypes) = some e) :
    (ancestor_builder_add_site b l frequency genotypes).sites
      = b.sites.set l ⟨frequency, some e.gid⟩ := by
  rw [add_site_hit b l frequency genotypes e h hfind]

theorem add_site_sites_miss (b : ancestor_builder_t) (l frequency : Nat)
    (genotypes : List Nat) (h : 1 < frequency)
    (hfind : (b.frequency_map.getD frequency []).find?
      (fun x => x.genotypes == genotypes) = none) :
    (ancestor_builder_add_site b l frequency genotypes).sites
      = b.sites.set l ⟨frequency, some b.next_gid⟩ := by
  rw [add_site_miss b l frequency genotypes h hfind]

theorem add_site_sites_low (b : ancestor_builder_t) (l frequency : Nat)
    (genotypes : List Nat) (h : ¬ 1 < frequency) :
    (ancestor_builder_add_site b l frequency genotypes).sites
      = b.sites.set l
          ⟨frequency, (b.sites.getD l ⟨0, none⟩).genotypes⟩ := by
  rw [add_site_low b l frequency genotypes h]

theorem add_site_sites_getD_ne (b : ancestor_builder_t) (l frequency : Nat)
    (genotypes : List Nat) (i : Nat) (hne : i ≠ l) :
    (ancestor_builder_add_site b l frequency genotypes).sites.getD i
        ⟨0, none⟩
      = b.sites.getD i ⟨0, none⟩ := by
  by_cases h : 1 < frequency
  · cases hfind : (b.frequency_map.getD frequency []).find?
        (fun x => x.genotypes == genotypes) with
    | some e1 =>
      rw [add_site_sites_hit b l frequency genotypes e1 h hfind,
        getD_set_ne _ _ _ _ _ (fun hh => hne hh.symm)]
    | none =>
      rw [add_site_sites_miss b l frequency genotypes h hfind,
        getD_set_ne _ _ _ _ _ (fun hh => hne hh.symm)]
  · rw [add_site_sites_low b l frequency genotypes h,
      getD_set_ne _ _ _ _ _ (fun hh => hne hh.symm)]

/-- An existing bucket entry survives any later `add_site` call with the
same canonical-buffer identity and contents. -/
theorem bucket_entry_persists (b : ancestor_builder_t) (l frequency : Nat)
    (genotypes : List Nat) (f : Nat) (e : pattern_map_t)
    (he : e ∈ b.frequency_map.getD f []) :
    ∃ e2 ∈ (ancestor_builder_add_site b l frequency
      genotypes).frequency_map.getD f [],
      e2.gid = e.gid ∧ e2.genotypes = e.genotypes := by
  by_cases h : 1 < frequency
  · cases hfind : (b.frequency_map.getD frequency []).find?
        (fun w => w.genotypes == genotypes) with
    | some e1 =>
      rw [add_site_fm_hit b l frequency genotypes e1 h hfind]
      by_cases hf : f = frequency
      · subst hf
        by_cases hlen : f < b.frequency_map.length
        · rw [getD_set_self_of_lt _ _ _ _ hlen]
          refine ⟨(fun w => if w.genotypes == genotypes then
              { w with num_sites := w.num_sites + 1, sites := l :: w.sites }
            else w) e, List.mem_map_of_mem _ he, ?_, ?_⟩
          · by_cases hw : e.genotypes == genotypes
            · simp only [if_pos hw]
            · simp only [if_neg hw]
          · by_cases hw : e.genotypes == genotypes
            · simp only [if_pos hw]
            · simp only [if_neg hw]
        · rw [getD_set_self_of_ge _ _ _ _ (le_of_not_lt hlen)]
          exact ⟨e, he, rfl, rfl⟩
      · rw [getD_set_ne _ _ _ _ _ (fun hh => hf hh.symm)]
        exact ⟨e, he, rfl, rfl⟩
    | none =>
      rw [add_site_fm_miss b l frequency genotypes h hfind]
      by_cases hf : f = frequency
      · subst hf
        by_cases hlen : f < b.frequency_map.length
        · rw [getD_set_self_of_lt _ _ _ _ hlen]
          exact ⟨e, (pattern_insert_mem _ _ _).mpr (Or.inr he), rfl, rfl⟩
        · rw [getD_set_self_of_ge _ _ _ _ (le_of_not_lt hlen)]
          exact ⟨e, he, rfl, rfl⟩
      · rw [getD_set_ne _ _ _ _ _ (fun hh => hf hh.symm)]
        exact ⟨e, he, rfl, rfl⟩
  · rw [add_site_fm_low b l frequency genotypes h]
    exact ⟨e, he, rfl, rfl⟩

/-- A recorded site-to-buffer association survives later `add_site` calls
on other site ids. -/
theorem foldl_preserves_site_fact (gd : Nat) (g : List Nat) (i f : Nat) :
    ∀ (adds : List site_add) (b : ancestor_builder_t),
    (∀ a ∈ adds, a.id ≠ i) →
    (∃ e ∈ b.frequency_map.getD f [], e.gid = gd ∧ e.genotypes = g) →
    b.sites.getD i ⟨0, none⟩ = ⟨f, some gd⟩ →
    (∃ e ∈ (adds.foldl (fun b a => ancestor_builder_add_site b a.id
        a.frequency a.genotypes) b).frequency_map.getD f [],
      e.gid = gd ∧ e.genotypes = g) ∧
    (adds.foldl (fun b a => ancestor_builder_add_site b a.id a.frequency
      a.genotypes) b).sites.getD i ⟨0, none⟩ = ⟨f, some gd⟩
  | [], _, _, hent, hsite => ⟨hent, hsite⟩
  | a :: rest, b, hni, hent, hsite => by
    rw [List.foldl_cons]
    obtain ⟨e, he, hgid, hgen⟩ := hent
    obtain ⟨e2, he2, hgid2, hgen2⟩ :=
      bucket_entry_persists b a.id a.frequency a.genotypes f e he
    exact foldl_preserves_site_fact gd g i f rest _
      (fun a2 ha2 => hni a2 (List.mem_cons_of_mem _ ha2))
      ⟨e2, he2, by rw [hgid2, hgid], by rw [hgen2, hgen]⟩
      (by rw [add_site_sites_getD_ne b a.id a.frequency a.genotypes i
          (fun hh => hni a (List.mem_cons_self _ _) hh.symm)]
          exact hsite)

/-- Each add at frequency at least 2 ends up associated with a bucket
entry whose canonical buffer holds exactly the supplied genotypes. -/
theorem foldl_canonical (ns : Nat) : ∀ (adds : List site_add)
    (b : ancestor_builder_t),
    b.frequency_map.length = ns + 1 →
    (∀ a ∈ adds, a.frequency ≤ ns ∧ a.id < b.sites.length) →
    (adds.map site_add.id).Nodup →
    ∀ a ∈ adds, 2 ≤ a.frequency →
    ∃ e ∈ (adds.foldl (fun b a => ancestor_builder_add_site b a.id
        a.frequency a.genotypes) b).frequency_map.getD a.frequency [],
      (adds.foldl (fun b a => ancestor_builder_add_site b a.id a.frequency
        a.genotypes) b).sites.getD a.id ⟨0, none⟩
          = ⟨a.frequency, some e.gid⟩ ∧
      e.genotypes = a.genotypes := by
  intro adds
  induction adds with
  | nil => intro b _ _ _ a ha; cases ha
  | cons a0 rest ih =>
    intro b hlen hbound hnd a ha hfa
    rw [List.map_cons, List.nodup_cons] at hnd
    rw [List.foldl_cons]
    rcases List.mem_cons.mp ha with rfl | har
    · have h1 : 1 < a.frequency := by omega
      have hflt : a.frequency < b.frequency_map.length := by
        have := (hbound a (List.mem_cons_self _ _)).1
        omega
      have hilt : a.id < b.sites.length :=
        (hbound a (List.mem_cons_self _ _)).2
      have hbase : ∃ gd,
          (∃ e ∈ (ancestor_builder_add_site b a.id a.frequency
              a.genotypes).frequency_map.getD a.frequency [],
            e.gid = gd ∧ e.genotypes = a.genotypes) ∧
          (ancestor_builder_add_site b a.id a.frequency
            a.genotypes).sites.getD a.id ⟨0, none⟩
              = ⟨a.frequency, some gd⟩ := by
        cases hfind : (b.frequency_map.getD a.frequency []).find?
            (fun w => w.genotypes == a.genotypes) with
        | some e1 =>
          have hw : (e1.genotypes == a.genotypes) = true := by
            have := List.find?_some hfind
            simpa using this
          refine ⟨e1.gid, ⟨?_, ?_⟩⟩
          · rw [add_site_fm_hit b a.id a.frequency a.genotypes e1 h1 hfind,
              getD_set_self_of_lt _ _ _ _ hflt]
            refine ⟨(fun w => if w.genotypes == a.genotypes then
                { w with num_sites := w.num_sites + 1, sites := a.id :: w.sites }
              else w) e1,
              List.mem_map_of_mem _ (List.mem_of_find?_eq_some hfind),
              ?_, ?_⟩
            · simp only [if_pos hw]
            · simp only [if_pos hw]
              exact beq_iff_eq.mp hw
          · rw [add_site_sites_hit b a.id a.frequency a.genotypes e1 h1
              hfind, getD_set_self_of_lt _ _ _ _ hilt]
        | none =>
          refine ⟨b.next_gid, ⟨?_, ?_⟩⟩
          · rw [add_site_fm_miss b a.id a.frequency a.genotypes h1 hfind,
              getD_set_self_of_lt _ _ _ _ hflt]
            exact ⟨⟨b.next_gid, a.genotypes, 1, [a.id]⟩,
              (pattern_insert_mem _ _ _).mpr (Or.inl rfl), rfl, rfl⟩
          · rw [add_site_sites_miss b a.id a.frequency a.genotypes h1
              hfind, getD_set_self_of_lt _ _ _ _ hilt]
      obtain ⟨gd, hent, hsite⟩ := hbase
      obtain ⟨⟨e, hemem, hegid, hegen⟩, hsite2⟩ :=
        foldl_preserves_site_fact gd a.genotypes a.id a.frequency rest
          (ancestor_builder_add_site b a.id a.frequency a.genotypes)
          (fun a2 ha2 hcona => hnd.1 (by
            rw [← hcona]
            exact List.mem_map_of_mem site_add.id ha2))
          hent hsite
      exact ⟨e, hemem, by rw [hsite2, hegid], hegen⟩
    · exact ih (ancestor_builder_add_site b a0.id a0.frequency a0.genotypes)
        (by rw [add_site_fm_length]; exact hlen)
        (fun a2 ha2 => ⟨(hbound a2 (List.mem_cons_of_mem _ ha2)).1, by
          rw [add_site_sites_length]
          exact (hbound a2 (List.mem_cons_of_mem _ ha2)).2⟩)
        hnd.2 a har hfa

/-! ### Claim theorem: canonical genotype buffers (C10) -/

/-- C10: after a sequence of add_site calls (one per site, within the
asserted bounds, each genotype column of length num_samples), every site
of frequency at least 2 references a canonical buffer whose contents are
bitwise equal to the supplied genotypes, and any two sites added at the
same frequency with byte-identical genotype vectors reference the same
single canonical buffer. -/
theorem add_site_genotype_dedup (ns nsites : Nat) (adds : List site_add)
    (b : ancestor_builder_t) (hb : b = build_builder ns nsites adds)
    (hdistinct : (adds.map site_add.id).Nodup)
    (hbound : ∀ a ∈ adds, a.frequency ≤ ns ∧ a.id < nsites)
    (hglen : ∀ a ∈ adds, a.genotypes.length = ns) :
    (∀ a ∈ adds, 2 ≤ a.frequency →
      ∃ e ∈ b.frequency_map.getD a.frequency [],
        b.sites.getD a.id ⟨0, none⟩ = ⟨a.frequency, some e.gid⟩ ∧
        e.genotypes = a.genotypes) ∧
    (∀ a1 ∈ adds, ∀ a2 ∈ adds, 2 ≤ a1.frequency →
      a1.frequency = a2.frequency → a1.genotypes = a2.genotypes →
      (b.sites.getD a1.id ⟨0, none⟩).genotypes
        = (b.sites.getD a2.id ⟨0, none⟩).genotypes) := by
  subst hb
  have hmain : ∀ a ∈ adds, 2 ≤ a.frequency →
      ∃ e ∈ (build_builder ns nsites adds).frequency_map.getD
        a.frequency [],
        (build_builder ns nsites adds).sites.getD a.id ⟨0, none⟩
          = ⟨a.frequency, some e.gid⟩ ∧
        e.genotypes = a.genotypes := by
    intro a ha hfa
    exact foldl_canonical ns adds (ancestor_builder_alloc ns nsites)
      (List.length_replicate _ _)
      (fun a2 ha2 => ⟨(hbound a2 ha2).1, by
        simpa [ancestor_builder_alloc] using (hbound a2 ha2).2⟩)
      hdistinct a ha hfa
  refine ⟨hmain, ?_⟩
  intro a1 h1 a2 h2 hf1 hfeq hgeq
  obtain ⟨e1, he1, hs1, hg1⟩ := hmain a1 h1 hf1
  obtain ⟨e2, he2, hs2, hg2⟩ := hmain a2 h2 (by omega)
  rw [← hfeq] at he2
  have he12 : e1 = e2 := by
    by_contra hne
    exact (List.Pairwise.forall (fun _ _ h => h.symm)
      (build_bucket_pairwise ns nsites adds a1.frequency) he1 he2 hne)
      (by rw [hg1, hg2]; exact hgeq)
  rw [hs1, hs2, he12]

/-- C10 witness: the deduplication scenario; both sites of the shared
pattern end with the same canonical buffer. -/
theorem add_site_genotype_dedup_witness :
    let adds : List site_add := [⟨0, 2, [1, 1, 0, 0]⟩, ⟨1, 2, [1, 1, 0, 0]⟩]
    let b := build_builder 4 2 adds
    b = build_builder 4 2 adds ∧
    (adds.map site_add.id).Nodup ∧
    (∀ a ∈ adds, a.frequency ≤ 4 ∧ a.id < 2) ∧
    (∀ a ∈ adds, a.genotypes.length = 4) ∧
    ((∀ a ∈ adds, 2 ≤ a.frequency →
      ∃ e ∈ b.frequency_map.getD a.frequency [],
        b.sites.getD a.id ⟨0, none⟩ = ⟨a.frequency, some e.gid⟩ ∧
        e.genotypes = a.genotypes) ∧
    (∀ a1 ∈ adds, ∀ a2 ∈ adds, 2 ≤ a1.frequency →
      a1.frequency = a2.frequency → a1.genotypes = a2.genotypes →
      (b.sites.getD a1.id ⟨0, none⟩).genotypes
        = (b.sites.getD a2.id ⟨0, none⟩).genotypes)) := by
  intro adds b
  exact ⟨rfl, by decide, by decide, by decide,
    add_site_genotype_dedup 4 2 adds b rfl (by decide) (by decide)
      (by decide)⟩
